import Mathlib

/-!
Verification of the `elastic` conversion engine (convert.go).

The Go source is shallowly embedded as follows.

* `GoType` models `reflect.Type`: an exact runtime type descriptor.  Two
  descriptors are equal iff they denote the identical declared type, so a
  named alias (`type FloatAlias float64`) is a distinct descriptor from its
  underlying type.  Named slice/map types and struct field structure are not
  modelled (struct descriptors are opaque identities).
* `GoVal` models an `interface{}` value: a runtime type tag plus contents.
  Go strings are byte lists (Go strings are arbitrary byte sequences).
  Go floating point values are modelled as rational numbers; every Go float
  is exactly such a rational, and rounding to the binary32/binary64 grid is
  performed explicitly (`roundToFloat`) where the Go code rounds.  Infinities
  and NaN are outside the model, as are hexadecimal float literals and
  overflow to infinity during parsing.
* `GoProgram` models the ambient program metadata that Go resolves
  dynamically: which types implement `ConverterTo`, which implement
  `fmt.Stringer`, and which implement a given interface.
* `ConverterEngine.Convert` is fuel-indexed because the Go code can recurse
  unboundedly through custom-converter re-dispatch.  `Outcome.outOfFuel`
  marks exhaustion of the fuel budget; `Outcome.panicked` marks a Go runtime
  panic (the code calls `sourceType.Kind()` on a nil `reflect.Type` when the
  source value is nil).
-/

set_option maxHeartbeats 1600000

attribute [local semireducible] Rat.mul Rat.add Rat.sub Rat.inv

/-- Representation kinds, mirroring `reflect.Kind` for the kinds the library
touches.  `kiface` is the kind of interface types. -/
inductive GoKind where
  | kbool | kint | kint8 | kint16 | kint32 | kint64
  | kuint | kuint8 | kuint16 | kuint32 | kuint64
  | kfloat32 | kfloat64 | kstring | kslice | kmap | kstruct | kptr | kiface
  deriving DecidableEq

/-- Exact runtime type descriptors (`reflect.Type`).  `prim name k` is a
declared type with a basic kind (predeclared types use their own name, e.g.
`prim "int" .kint`; aliases use theirs, e.g. `prim "FloatAlias" .kfloat64`).
Slice, map and pointer types are unnamed composites; struct and interface
types are opaque identities. -/
inductive GoType where
  | prim (name : String) (k : GoKind)
  | sliceT (elem : GoType)
  | mapT (key val : GoType)
  | structT (name : String)
  | ptrT (elem : GoType)
  | ifaceT (name : String)
  deriving DecidableEq

/-- Runtime values carried in an `interface{}`.  `vnil` is the nil interface
value (it has no runtime type). -/
inductive GoVal where
  | vnil
  | vbool (t : GoType) (b : Bool)
  | vint (t : GoType) (n : Int)
  | vuint (t : GoType) (n : Nat)
  | vfloat (t : GoType) (q : ℚ)
  | vstring (t : GoType) (s : List Nat)
  | vslice (t : GoType) (elems : List GoVal)
  | vmap (t : GoType) (entries : List (GoVal × GoVal))
  | vstruct (t : GoType) (payload : Nat)
  | vptr (elem : GoType) (pointee : GoVal)

mutual

/-- Structural equality on values (used to model Go `==` on map keys). -/
def GoVal.beq : GoVal → GoVal → Bool
  | .vnil, .vnil => true
  | .vbool t x, .vbool u y => decide (t = u) && decide (x = y)
  | .vint t x, .vint u y => decide (t = u) && decide (x = y)
  | .vuint t x, .vuint u y => decide (t = u) && decide (x = y)
  | .vfloat t x, .vfloat u y => decide (t = u) && decide (x = y)
  | .vstring t x, .vstring u y => decide (t = u) && decide (x = y)
  | .vslice t x, .vslice u y => decide (t = u) && beqList x y
  | .vmap t x, .vmap u y => decide (t = u) && beqPairs x y
  | .vstruct t x, .vstruct u y => decide (t = u) && decide (x = y)
  | .vptr t x, .vptr u y => decide (t = u) && GoVal.beq x y
  | _, _ => false

/-- Pointwise `GoVal.beq` on lists. -/
def beqList : List GoVal → List GoVal → Bool
  | [], [] => true
  | a :: as0, b :: bs0 => GoVal.beq a b && beqList as0 bs0
  | _, _ => false

/-- Pointwise `GoVal.beq` on entry lists. -/
def beqPairs : List (GoVal × GoVal) → List (GoVal × GoVal) → Bool
  | [], [] => true
  | (k1, v1) :: r1, (k2, v2) :: r2 => GoVal.beq k1 k2 && GoVal.beq v1 v2 && beqPairs r1 r2
  | _, _ => false

end

theorem beqList_eq (es fs : List GoVal)
    (ih : ∀ a ∈ es, ∀ b, GoVal.beq a b = true → a = b)
    (h : beqList es fs = true) : es = fs := by
  induction es generalizing fs with
  | nil => cases fs with
    | nil => rfl
    | cons b bs => simp [beqList] at h
  | cons a as0 ihl =>
    cases fs with
    | nil => simp [beqList] at h
    | cons b bs =>
      simp only [beqList, Bool.and_eq_true] at h
      have h1 := ih a (by simp) b h.1
      have h2 := ihl bs (fun x hx b2 => ih x (List.mem_cons_of_mem _ hx) b2) h.2
      rw [h1, h2]

theorem beqPairs_eq (es fs : List (GoVal × GoVal))
    (ih : ∀ p ∈ es, ∀ b, (GoVal.beq p.1 b = true → p.1 = b) ∧ (GoVal.beq p.2 b = true → p.2 = b))
    (h : beqPairs es fs = true) : es = fs := by
  induction es generalizing fs with
  | nil => cases fs with
    | nil => rfl
    | cons b bs => simp [beqPairs] at h
  | cons a as0 ihl =>
    cases fs with
    | nil => obtain ⟨k, v⟩ := a; simp [beqPairs] at h
    | cons b bs =>
      obtain ⟨k1, v1⟩ := a
      obtain ⟨k2, v2⟩ := b
      simp only [beqPairs, Bool.and_eq_true] at h
      have h1 : k1 = k2 := (ih (k1, v1) (by simp) k2).1 h.1.1
      have h2 : v1 = v2 := (ih (k1, v1) (by simp) v2).2 h.1.2
      have h3 := ihl bs (fun x hx => ih x (List.mem_cons_of_mem _ hx)) h.2
      rw [h1, h2, h3]

theorem GoVal.beq_eq : ∀ (a b : GoVal), GoVal.beq a b = true → a = b := by
  have main : ∀ n, ∀ (a b : GoVal), sizeOf a ≤ n → GoVal.beq a b = true → a = b := by
    intro n
    induction n using Nat.strong_induction_on with
    | _ n ihn =>
      intro a b hsz h
      cases a <;> cases b <;>
        simp only [GoVal.beq, Bool.and_eq_true, decide_eq_true_eq] at h
      all_goals try exact absurd h Bool.false_ne_true
      case vnil.vnil => rfl
      case vbool.vbool => rw [h.1, h.2]
      case vint.vint => rw [h.1, h.2]
      case vuint.vuint => rw [h.1, h.2]
      case vfloat.vfloat => rw [h.1, h.2]
      case vstring.vstring => rw [h.1, h.2]
      case vslice.vslice t es u fs =>
        have hlt : ∀ a ∈ es, ∀ b, GoVal.beq a b = true → a = b := by
          intro x hx b2 hb
          have hx2 : sizeOf x < sizeOf (GoVal.vslice t es) := by
            have := List.sizeOf_lt_of_mem hx
            simp only [GoVal.vslice.sizeOf_spec]
            omega
          exact ihn (sizeOf x) (by omega) x b2 (le_refl _) hb
        rw [h.1, beqList_eq es fs hlt h.2]
      case vmap.vmap t es u fs =>
        have hlt : ∀ p ∈ es, ∀ b,
            (GoVal.beq p.1 b = true → p.1 = b) ∧ (GoVal.beq p.2 b = true → p.2 = b) := by
          intro p hp b2
          have hps := List.sizeOf_lt_of_mem hp
          have hsz2 : sizeOf p.1 < sizeOf (GoVal.vmap t es) ∧
              sizeOf p.2 < sizeOf (GoVal.vmap t es) := by
            obtain ⟨x, y⟩ := p
            simp only [GoVal.vmap.sizeOf_spec]
            simp only [Prod.mk.sizeOf_spec] at hps
            constructor <;> omega
          exact ⟨fun hb => ihn (sizeOf p.1) (by omega) p.1 b2 (le_refl _) hb,
                 fun hb => ihn (sizeOf p.2) (by omega) p.2 b2 (le_refl _) hb⟩
        rw [h.1, beqPairs_eq es fs hlt h.2]
      case vstruct.vstruct => rw [h.1, h.2]
      case vptr.vptr t x u y =>
        have : sizeOf x < sizeOf (GoVal.vptr t x) := by
          simp only [GoVal.vptr.sizeOf_spec]; omega
        rw [h.1, ihn (sizeOf x) (by omega) x y (le_refl _) h.2]
  exact fun a b => main (sizeOf a) a b (le_refl _)

theorem beqList_refl (es : List GoVal) (ih : ∀ a ∈ es, GoVal.beq a a = true) :
    beqList es es = true := by
  induction es with
  | nil => rfl
  | cons a as0 ihl =>
    simp only [beqList, Bool.and_eq_true]
    exact ⟨ih a (by simp), ihl (fun x hx => ih x (by simp [hx]))⟩

theorem beqPairs_refl (es : List (GoVal × GoVal))
    (ih : ∀ p ∈ es, GoVal.beq p.1 p.1 = true ∧ GoVal.beq p.2 p.2 = true) :
    beqPairs es es = true := by
  induction es with
  | nil => rfl
  | cons a as0 ihl =>
    obtain ⟨k, v⟩ := a
    simp only [beqPairs, Bool.and_eq_true]
    exact ⟨⟨(ih (k, v) (by simp)).1, (ih (k, v) (by simp)).2⟩,
           ihl (fun x hx => ih x (by simp [hx]))⟩

theorem GoVal.beq_refl : ∀ (a : GoVal), GoVal.beq a a = true := by
  have main : ∀ n, ∀ (a : GoVal), sizeOf a ≤ n → GoVal.beq a a = true := by
    intro n
    induction n using Nat.strong_induction_on with
    | _ n ihn =>
      intro a hsz
      cases a <;> simp only [GoVal.beq, Bool.and_eq_true, decide_eq_true_eq] <;>
        try exact ⟨trivial, trivial⟩
      case vslice t es =>
        refine ⟨trivial, ?_⟩
        apply beqList_refl
        intro x hx
        have := List.sizeOf_lt_of_mem hx
        have hx2 : sizeOf x < sizeOf (GoVal.vslice t es) := by
          simp only [GoVal.vslice.sizeOf_spec]; omega
        exact ihn (sizeOf x) (by omega) x (le_refl _)
      case vmap t es =>
        refine ⟨trivial, ?_⟩
        apply beqPairs_refl
        intro p hp
        have hps := List.sizeOf_lt_of_mem hp
        have hsz2 : sizeOf p.1 < sizeOf (GoVal.vmap t es) ∧
            sizeOf p.2 < sizeOf (GoVal.vmap t es) := by
          obtain ⟨x, y⟩ := p
          simp only [GoVal.vmap.sizeOf_spec]
          simp only [Prod.mk.sizeOf_spec] at hps
          constructor <;> omega
        exact ⟨ihn (sizeOf p.1) (by omega) p.1 (le_refl _),
               ihn (sizeOf p.2) (by omega) p.2 (le_refl _)⟩
      case vptr t x =>
        have : sizeOf x < sizeOf (GoVal.vptr t x) := by
          simp only [GoVal.vptr.sizeOf_spec]; omega
        exact ⟨trivial, ihn (sizeOf x) (by omega) x (le_refl _)⟩
  exact fun a => main (sizeOf a) a (le_refl _)

instance : DecidableEq GoVal := fun a b =>
  if h : GoVal.beq a b = true then isTrue (GoVal.beq_eq a b h)
  else isFalse (fun he => h (he ▸ GoVal.beq_refl a))

/-- The representation kind of a type descriptor (`reflect.Type.Kind`). -/
def GoType.kind : GoType → GoKind
  | .prim _ k => k
  | .sliceT _ => .kslice
  | .mapT _ _ => .kmap
  | .structT _ => .kstruct
  | .ptrT _ => .kptr
  | .ifaceT _ => .kiface

/-- `reflect.Type.Elem` for slice, map and pointer types (element type for a
slice/pointer, value type for a map).  Unused for other kinds. -/
def GoType.elemType : GoType → GoType
  | .sliceT e => e
  | .mapT _ v => v
  | .ptrT e => e
  | _ => .structT ""

/-- `reflect.Type.Key` for map types.  Unused for other kinds. -/
def GoType.keyType : GoType → GoType
  | .mapT k _ => k
  | _ => .structT ""

/-- Underlying type up to the outermost declared name: two types are
representation-identical (Go "identical underlying types") iff their images
under this map coincide.  Struct descriptors are opaque in the model, so two
differently named struct types are never identified. -/
def GoType.underlying : GoType → GoType
  | .prim _ k => .prim "" k
  | t => t

/-- Bit width of a basic kind on a 64 bit platform (`reflect.Type.Size() * 8`). -/
def GoKind.width : GoKind → Nat
  | .kint | .kint64 | .kuint | .kuint64 | .kfloat64 => 64
  | .kint8 | .kuint8 => 8
  | .kint16 | .kuint16 => 16
  | .kint32 | .kuint32 | .kfloat32 => 32
  | _ => 0

/-- Signed integer kinds. -/
def GoKind.isSigned : GoKind → Bool
  | .kint | .kint8 | .kint16 | .kint32 | .kint64 => true
  | _ => false

/-- Unsigned integer kinds. -/
def GoKind.isUnsigned : GoKind → Bool
  | .kuint | .kuint8 | .kuint16 | .kuint32 | .kuint64 => true
  | _ => false

/-- Floating point kinds. -/
def GoKind.isFloat : GoKind → Bool
  | .kfloat32 | .kfloat64 => true
  | _ => false

/-- Integer kinds (signed or unsigned). -/
def GoKind.isInteger (k : GoKind) : Bool := k.isSigned || k.isUnsigned

/-- Numeric kinds (integer or float; the library does not touch complex). -/
def GoKind.isNumeric (k : GoKind) : Bool := k.isInteger || k.isFloat

/-- `reflect.TypeOf`: the dynamic type of an interface value, or `none` for
the nil interface value. -/
def typeOf? : GoVal → Option GoType
  | .vnil => none
  | .vbool t _ => some t
  | .vint t _ => some t
  | .vuint t _ => some t
  | .vfloat t _ => some t
  | .vstring t _ => some t
  | .vslice t _ => some t
  | .vmap t _ => some t
  | .vstruct t _ => some t
  | .vptr t _ => some (.ptrT t)

/-- Predeclared `bool`. -/
def goBoolT : GoType := .prim "bool" .kbool
/-- Predeclared `int`. -/
def goIntT : GoType := .prim "int" .kint
/-- Predeclared `int8`. -/
def goInt8T : GoType := .prim "int8" .kint8
/-- Predeclared `int16`. -/
def goInt16T : GoType := .prim "int16" .kint16
/-- Predeclared `int32`. -/
def goInt32T : GoType := .prim "int32" .kint32
/-- Predeclared `int64`. -/
def goInt64T : GoType := .prim "int64" .kint64
/-- Predeclared `uint`. -/
def goUintT : GoType := .prim "uint" .kuint
/-- Predeclared `uint8`. -/
def goUint8T : GoType := .prim "uint8" .kuint8
/-- Predeclared `uint64`. -/
def goUint64T : GoType := .prim "uint64" .kuint64
/-- Predeclared `float32`. -/
def goFloat32T : GoType := .prim "float32" .kfloat32
/-- Predeclared `float64`. -/
def goFloat64T : GoType := .prim "float64" .kfloat64
/-- Predeclared `string`. -/
def goStringT : GoType := .prim "string" .kstring

/-- `reflect.Value.Bool` (zero for values of other shapes, which Go cannot
produce for a bool-kinded value). -/
def asBool : GoVal → Bool
  | .vbool _ b => b
  | _ => false

/-- `reflect.Value.Int`. -/
def asInt : GoVal → Int
  | .vint _ n => n
  | _ => 0

/-- `reflect.Value.Uint`. -/
def asUint : GoVal → Nat
  | .vuint _ n => n
  | _ => 0

/-- `reflect.Value.Float`, and the exact rational value of any numeric value. -/
def asRat : GoVal → ℚ
  | .vfloat _ q => q
  | .vint _ n => (n : ℚ)
  | .vuint _ n => (n : ℚ)
  | _ => 0

/-- `reflect.Value.String` as bytes. -/
def asString : GoVal → List Nat
  | .vstring _ s => s
  | _ => []

/-- The elements of a slice value. -/
def asElems : GoVal → List GoVal
  | .vslice _ es => es
  | _ => []

/-- The entries of a map value. -/
def asEntries : GoVal → List (GoVal × GoVal)
  | .vmap _ ps => ps
  | _ => []

/-- Truncation toward zero of a rational (Go float-to-integer conversion). -/
def ratTrunc (q : ℚ) : Int := q.num.tdiv (q.den : Int)

/-- The numeric contents of a value as an integer, truncating floats toward
zero (Go's conversion of a float to an integer type). -/
def truncAsInt : GoVal → Int
  | .vint _ n => n
  | .vuint _ n => (n : Int)
  | .vfloat _ q => ratTrunc q
  | _ => 0

/-- Reduce an integer into the range of a `w` bit two's-complement signed
integer (Go integer conversion semantics). -/
def wrapSigned (n : Int) (w : Nat) : Int :=
  ((n + 2 ^ (w - 1)) % (2 ^ w : Int)) - 2 ^ (w - 1)

/-- Reduce an integer modulo `2 ^ w` (Go conversion to an unsigned type). -/
def wrapUnsigned (n : Int) (w : Nat) : Nat := ((n % (2 ^ w : Int))).toNat

/-- Little-endian base-10 digits, fuel-indexed (kernel-computable version of
`Nat.digits 10`; see `natDigits_eq_digits`). -/
def natDigitsAux : Nat → Nat → List Nat
  | 0, _ => []
  | f + 1, n => if n = 0 then [] else n % 10 :: natDigitsAux f (n / 10)

/-- Little-endian base-10 digits of a natural number. -/
def natDigits (n : Nat) : List Nat := natDigitsAux n n

/-- Floor of the base-2 logarithm, fuel-indexed (kernel-computable version
of `Nat.log2`). -/
def natLog2Aux : Nat → Nat → Nat
  | 0, _ => 0
  | f + 1, n => if n ≤ 1 then 0 else natLog2Aux f (n / 2) + 1

/-- Floor of the base-2 logarithm. -/
def natLog2 (n : Nat) : Nat := natLog2Aux n n

/-- `2 ^ k` as a rational, for an integer exponent. -/
def pow2q (k : Int) : ℚ :=
  if 0 ≤ k then ((2 ^ k.toNat : Nat) : ℚ) else 1 / ((2 ^ (-k).toNat : Nat) : ℚ)

/-- `10 ^ k` as a rational, for an integer exponent. -/
def pow10q (k : Int) : ℚ :=
  if 0 ≤ k then ((10 ^ k.toNat : Nat) : ℚ) else 1 / ((10 ^ (-k).toNat : Nat) : ℚ)

/-- Round a rational to the nearest integer, ties to even (the rounding used
throughout Go's strconv decimal/binary conversions). -/
def roundHalfEven (x : ℚ) : Int :=
  let f := ⌊x⌋
  let r := x - (f : ℚ)
  if r < 1 / 2 then f
  else if 1 / 2 < r then f + 1
  else if f % 2 = 0 then f else f + 1

/-- Round a rational to the IEEE binary floating point grid with `prec`
mantissa bits and minimum exponent step `emin` (binary64: 53, -1074;
binary32: 24, -149), round to nearest, ties to even.  Overflow to infinity is
outside the model. -/
def roundToFloat (prec : Nat) (emin : Int) (q : ℚ) : ℚ :=
  if q = 0 then 0
  else
    let a := |q|
    let e0 : Int := (natLog2 a.num.natAbs : Int) - (natLog2 a.den : Int)
    let e : Int := if a < pow2q e0 then e0 else e0 + 1
    let k : Int := max (e - (prec : Int)) emin
    let m := roundHalfEven (a / pow2q k)
    let r : ℚ := (m : ℚ) * pow2q k
    if q < 0 then -r else r

/-- The ASCII bytes of a string literal (for the ASCII-only constants the
library formats and parses). -/
def asciiStr (s : String) : List Nat := s.data.map Char.toNat

/-- Base-10 digits of a natural number as ASCII bytes, most significant
first (`strconv.FormatUint(m, 10)`). -/
def formatNat (m : Nat) : List Nat :=
  if m = 0 then [48] else (natDigits m).reverse.map (fun d => d + 48)

/-- `strconv.FormatInt(n, 10)`. -/
def formatInt (n : Int) : List Nat :=
  if n < 0 then 45 :: formatNat n.natAbs else formatNat n.toNat

/-- `strconv.FormatBool`. -/
def formatBool (b : Bool) : List Nat :=
  if b then asciiStr "true" else asciiStr "false"

/-- Is this byte an ASCII decimal digit? -/
def isDigitB (c : Nat) : Bool := 48 ≤ c && c ≤ 57

/-- The value of a big-endian ASCII digit string. -/
def decDigitsVal (l : List Nat) : Nat := l.foldl (fun a c => a * 10 + (c - 48)) 0

/-- Parse a non-empty all-digit byte string as a natural number; `none` on
any other input. -/
def parseNatDigits (l : List Nat) : Option Nat :=
  if l ≠ [] ∧ l.all isDigitB then some (decDigitsVal l) else none

/-- Errors produced by the strconv parsers (`*strconv.NumError` with
`ErrSyntax` resp. `ErrRange`); carries the function name and input. -/
inductive ParseErr where
  | badInput (fn : String) (num : List Nat)
  | outOfRange (fn : String) (num : List Nat)
  deriving DecidableEq

/-- `strconv.ParseUint(s, 10, bitSize)` (no sign is accepted; underscores,
base prefixes and non-decimal bases are outside the model). -/
def parseUint (s : List Nat) (bitSize : Nat) : Except ParseErr Nat :=
  match parseNatDigits s with
  | none => .error (.badInput "ParseUint" s)
  | some m => if m < 2 ^ bitSize then .ok m else .error (.outOfRange "ParseUint" s)

/-- `strconv.ParseInt(s, 10, bitSize)`: an optional sign, then decimal
digits, range-checked against the two's-complement range of `bitSize`. -/
def parseInt (s : List Nat) (bitSize : Nat) : Except ParseErr Int :=
  match s with
  | [] => .error (.badInput "ParseInt" s)
  | c :: rest =>
    if c = 45 then
      match parseNatDigits rest with
      | none => .error (.badInput "ParseInt" s)
      | some m =>
        if m ≤ 2 ^ (bitSize - 1) then .ok (-(m : Int)) else .error (.outOfRange "ParseInt" s)
    else if c = 43 then
      match parseNatDigits rest with
      | none => .error (.badInput "ParseInt" s)
      | some m =>
        if m < 2 ^ (bitSize - 1) then .ok (m : Int) else .error (.outOfRange "ParseInt" s)
    else
      match parseNatDigits (c :: rest) with
      | none => .error (.badInput "ParseInt" s)
      | some m =>
        if m < 2 ^ (bitSize - 1) then .ok (m : Int) else .error (.outOfRange "ParseInt" s)

/-- `strconv.ParseBool`. -/
def parseBool (s : List Nat) : Except ParseErr Bool :=
  if s = asciiStr "1" ∨ s = asciiStr "t" ∨ s = asciiStr "T" ∨ s = asciiStr "true" ∨
      s = asciiStr "TRUE" ∨ s = asciiStr "True" then .ok true
  else if s = asciiStr "0" ∨ s = asciiStr "f" ∨ s = asciiStr "F" ∨ s = asciiStr "false" ∨
      s = asciiStr "FALSE" ∨ s = asciiStr "False" then .ok false
  else .error (.badInput "ParseBool" s)

/-- Parse the exponent suffix of a float literal: the whole remaining input
must be `e`/`E`, an optional sign, and at least one digit.  `some 0` when the
input is empty (no exponent part); `none` on a malformed suffix. -/
def parseFloatExp : List Nat → Option Int
  | [] => some 0
  | c :: rest =>
    if c = 101 ∨ c = 69 then
      match rest with
      | 45 :: r2 => (parseNatDigits r2).map (fun m => -(m : Int))
      | 43 :: r2 => (parseNatDigits r2).map (fun m => (m : Int))
      | r2 => (parseNatDigits r2).map (fun m => (m : Int))
    else none

/-- `strconv.ParseFloat(s, bitSize)` for decimal literals: optional sign,
digits with an optional fractional part, optional decimal exponent; the
result is correctly rounded to the target binary grid.  `Inf`/`NaN`,
hexadecimal literals, underscores and overflow to infinity are outside the
model. -/
def parseFloat (s : List Nat) (bitSize : Nat) : Except ParseErr ℚ :=
  let signAndRest : Bool × List Nat :=
    match s with
    | 45 :: rest => (true, rest)
    | 43 :: rest => (false, rest)
    | _ => (false, s)
  let neg := signAndRest.1
  let s1 := signAndRest.2
  let ip := s1.takeWhile isDigitB
  let s2 := s1.dropWhile isDigitB
  let fpAndRest : List Nat × List Nat :=
    match s2 with
    | 46 :: rest => (rest.takeWhile isDigitB, rest.dropWhile isDigitB)
    | _ => ([], s2)
  let fp := fpAndRest.1
  let s3 := fpAndRest.2
  if ip.length + fp.length = 0 then .error (.badInput "ParseFloat" s)
  else
    match parseFloatExp s3 with
    | none => .error (.badInput "ParseFloat" s)
    | some e =>
      let mag : ℚ := (decDigitsVal (ip ++ fp) : ℚ) * pow10q (e - fp.length)
      let prec : Nat := if bitSize = 32 then 24 else 53
      let emin : Int := if bitSize = 32 then -149 else -1074
      let r := roundToFloat prec emin mag
      .ok (if neg then -r else r)

/-- The decimal exponent of a positive rational: the unique `t` with
`10 ^ (t - 1) ≤ a < 10 ^ t`. -/
def decExp (a : ℚ) : Int :=
  let lp : Int := ((natDigits a.num.natAbs).length : Int)
  let lq : Int := ((natDigits a.den).length : Int)
  let t0 : Int := lp - lq
  if a < pow10q t0 then t0 else t0 + 1

/-- Drop trailing zeros from a digit list. -/
def stripTrailingZeros (l : List Nat) : List Nat :=
  (l.reverse.dropWhile (fun d => d = 0)).reverse

/-- Render a non-negative exponent with at least two digits (the exponent
field of Go's `%e` output). -/
def expDigits (e : Nat) : List Nat :=
  if e < 10 then [48, 48 + e] else formatNat e

/-- `strconv.FormatFloat(x, 'g', 6, bitSize)`: round to 6 significant
digits (correctly rounded, ties to even), drop trailing zeros, and use
scientific notation iff the decimal exponent is `< -4` or `≥ 6`.  The
`bitSize` argument does not affect the output for a fixed precision, so it is
not a parameter here. -/
def formatFloat (q : ℚ) : List Nat :=
  if q = 0 then [48]
  else
    let a := |q|
    let t := decExp a
    let m0 := roundHalfEven (a * pow10q (6 - t))
    let mt : Int × Int := if m0 = 10 ^ 6 then ((10 : Int) ^ 5, t + 1) else (m0, t)
    let digs := (natDigits mt.1.toNat).reverse
    let sig := stripTrailingZeros digs
    let exp : Int := mt.2 - 1
    let body :=
      if exp < -4 ∨ 6 ≤ exp then
        let mantissa :=
          match sig with
          | [] => [48]
          | d :: [] => [d + 48]
          | d :: ds => (d + 48) :: 46 :: ds.map (fun x => x + 48)
        mantissa ++ [101] ++ (if exp < 0 then [45] else [43]) ++ expDigits exp.natAbs
      else if 0 ≤ exp then
        let k := exp.toNat + 1
        if sig.length ≤ k then
          (sig.map (fun x => x + 48)) ++ List.replicate (k - sig.length) 48
        else
          ((sig.take k).map (fun x => x + 48)) ++ [46] ++ ((sig.drop k).map (fun x => x + 48))
      else
        [48, 46] ++ List.replicate ((-exp).toNat - 1) 48 ++ sig.map (fun x => x + 48)
    if q < 0 then 45 :: body else body

/-- UTF-8 encoding of a code point; invalid code points (negative, beyond
U+10FFFF, or surrogates) encode U+FFFD, as in Go's integer-to-string
conversion and rune encoding. -/
def utf8EncodeCp (cp : Int) : List Nat :=
  let c : Nat :=
    if cp < 0 ∨ 0x10FFFF < cp ∨ (0xD800 ≤ cp ∧ cp ≤ 0xDFFF) then 0xFFFD else cp.toNat
  if c < 0x80 then [c]
  else if c < 0x800 then [0xC0 + c / 64, 0x80 + c % 64]
  else if c < 0x10000 then [0xE0 + c / 4096, 0x80 + (c / 64) % 64, 0x80 + c % 64]
  else [0xF0 + c / 262144, 0x80 + (c / 4096) % 64, 0x80 + (c / 64) % 64, 0x80 + c % 64]

/-- Is this byte a UTF-8 continuation byte? -/
def isCont (c : Nat) : Bool := 0x80 ≤ c && c < 0xC0

/-- Decode one UTF-8 sequence: the code point and the number of
continuation bytes consumed (0 for an invalid leading byte or sequence,
which yields U+FFFD for the single byte, as in Go). -/
def utf8Step (b : Nat) (rest : List Nat) : Int × Nat :=
  if b < 0x80 then ((b : Int), 0)
  else if b < 0xC2 then (0xFFFD, 0)
  else if b < 0xE0 then
    match rest with
    | c1 :: _ =>
      if isCont c1 then ((((b - 0xC0) * 64 + (c1 - 0x80) : Nat) : Int), 1) else (0xFFFD, 0)
    | [] => (0xFFFD, 0)
  else if b < 0xF0 then
    match rest with
    | c1 :: c2 :: _ =>
      if isCont c1 && isCont c2 &&
          (decide (b ≠ 0xE0) || decide (0xA0 ≤ c1)) &&
          (decide (b ≠ 0xED) || decide (c1 < 0xA0)) then
        ((((b - 0xE0) * 4096 + (c1 - 0x80) * 64 + (c2 - 0x80) : Nat) : Int), 2)
      else (0xFFFD, 0)
    | _ => (0xFFFD, 0)
  else if b < 0xF5 then
    match rest with
    | c1 :: c2 :: c3 :: _ =>
      if isCont c1 && isCont c2 && isCont c3 &&
          (decide (b ≠ 0xF0) || decide (0x90 ≤ c1)) &&
          (decide (b ≠ 0xF4) || decide (c1 < 0x90)) then
        ((((b - 0xF0) * 262144 + (c1 - 0x80) * 4096 + (c2 - 0x80) * 64 + (c3 - 0x80) : Nat) : Int),
          3)
      else (0xFFFD, 0)
    | _ => (0xFFFD, 0)
  else (0xFFFD, 0)

/-- UTF-8 decoding to code points, one U+FFFD per invalid byte (Go
string-to-rune-slice conversion semantics). -/
def utf8Decode : List Nat → List Int
  | [] => []
  | b :: rest =>
    let st := utf8Step b rest
    st.1 :: utf8Decode (rest.drop st.2)
termination_by l => l.length
decreasing_by simp only [List.length_cons, List.length_drop]; omega

/-- The errors of the library (convert.go) plus the shapes of errors a
custom converter can produce: the three exported sentinel errors, strconv
parse errors, and arbitrary other errors (`custom`). -/
inductive GoError where
  | errExpectedPointer
  | errIncompatibleType
  | errNoConversionAvailable
  | numError (e : ParseErr)
  | custom (code : Nat)
  deriving DecidableEq

/-- The result of a conversion: a value, an error, a Go runtime panic, or
exhaustion of the re-dispatch fuel budget (modelling the unguarded recursion
of the Go code). -/
inductive Outcome where
  | ok (v : GoVal)
  | err (e : GoError)
  | panicked
  | outOfFuel
  deriving DecidableEq

/-- `ConverterFunc`: a custom conversion function.  Go returns a pair
`(interface{}, error)` and the engine inspects the error first; this is an
`Except`. -/
def ConverterFunc : Type := GoVal → GoType → Except GoError GoVal

/-- Ambient program metadata resolved dynamically by Go: for each type, its
`ConverterTo` method (if implemented), its `fmt.Stringer` method (if
implemented), and which interface types it implements. -/
structure GoProgram where
  converterTo : GoType → Option (GoVal → GoType → Except GoError GoVal)
  stringer : GoType → Option (GoVal → List Nat)
  implements : GoType → GoType → Bool

/-- The trivial program: no type implements `ConverterTo`, `fmt.Stringer`
or any interface. -/
def prog0 : GoProgram := ⟨fun _ => none, fun _ => none, fun _ _ => false⟩

/-- Go convertibility (`reflect.Type.ConvertibleTo`) restricted to the types
of the model: identity, identical underlying types, numeric conversions,
integer-to-string, string/byte-slice and string/rune-slice conversions, and
conversion to an implemented interface type. -/
def convertibleTo (prog : GoProgram) (s t : GoType) : Bool :=
  decide (s = t) ||
  decide (s.underlying = t.underlying) ||
  (s.kind.isNumeric && t.kind.isNumeric) ||
  (s.kind.isInteger && decide (t.kind = .kstring)) ||
  (decide (s.kind = .kstring) && decide (t.kind = .kslice) &&
    (decide (t.elemType.kind = .kuint8) || decide (t.elemType.kind = .kint32))) ||
  (decide (s.kind = .kslice) && decide (t.kind = .kstring) &&
    (decide (s.elemType.kind = .kuint8) || decide (s.elemType.kind = .kint32))) ||
  (decide (t.kind = .kiface) && prog.implements s t)

/-- `reflect.Value.Convert(t)` for a convertible pair.  Every branch for a
non-interface target retags the result with exactly `t`; conversion to an
interface type leaves the value (and its dynamic type) unchanged, which is
what `Value.Convert(ifaceType).Interface()` observes.  Unreachable
value/kind combinations retag with empty contents. -/
def reflectConvert (v : GoVal) (t : GoType) : GoVal :=
  match t.kind with
  | .kiface => v
  | .kbool => .vbool t (asBool v)
  | .kint | .kint8 | .kint16 | .kint32 | .kint64 =>
    .vint t (wrapSigned (truncAsInt v) t.kind.width)
  | .kuint | .kuint8 | .kuint16 | .kuint32 | .kuint64 =>
    .vuint t (wrapUnsigned (truncAsInt v) t.kind.width)
  | .kfloat32 => .vfloat t (roundToFloat 24 (-149) (asRat v))
  | .kfloat64 => .vfloat t (roundToFloat 53 (-1074) (asRat v))
  | .kstring =>
    match v with
    | .vstring _ s => .vstring t s
    | .vint _ n => .vstring t (utf8EncodeCp n)
    | .vuint _ n => .vstring t (utf8EncodeCp (n : Int))
    | .vslice st es =>
      if st.elemType.kind = .kuint8 then .vstring t (es.map asUint)
      else if st.elemType.kind = .kint32 then .vstring t (es.flatMap (fun e => utf8EncodeCp (asInt e)))
      else .vstring t []
    | _ => .vstring t []
  | .kslice =>
    match v with
    | .vslice _ es => .vslice t es
    | .vstring _ s =>
      if t.elemType.kind = .kuint8 then .vslice t (s.map (fun b => .vuint t.elemType b))
      else if t.elemType.kind = .kint32 then
        .vslice t ((utf8Decode s).map (fun c => .vint t.elemType c))
      else .vslice t []
    | _ => .vslice t []
  | .kmap =>
    match v with
    | .vmap _ ps => .vmap t ps
    | _ => .vmap t []
  | .kstruct =>
    match v with
    | .vstruct _ p => .vstruct t p
    | _ => .vstruct t 0
  | .kptr =>
    match t, v with
    | .ptrT e, .vptr _ p => .vptr e p
    | .ptrT e, _ => .vptr e .vnil
    | _, _ => .vstruct t 0

/-- `kind2Exact` (convert.go): `reflect.ValueOf(source).Convert(targetType)`. -/
def kind2Exact (source : GoVal) (targetType : GoType) : GoVal :=
  reflectConvert source targetType

/-- `ConverterEngine` (convert.go): the three converter registries.  The Go
registries are hash maps from `reflect.Type`; they are modelled as
association lists (for `interfaceConverters`, whose Go iteration order is
unspecified, the list order fixes one possible order). -/
structure ConverterEngine where
  sourceConverters : List (GoType × List ConverterFunc)
  targetConverters : List (GoType × List ConverterFunc)
  interfaceConverters : List (GoType × List ConverterFunc)

/-- `New` (convert.go): an engine with empty registries. -/
def ConverterEngine.New : ConverterEngine := ⟨[], [], []⟩

/-- Append `f` to the function list registered under `t` (creating the
entry if absent) — the shared body of the `Add*Converter` methods. -/
def addToReg (regs : List (GoType × List ConverterFunc)) (t : GoType) (f : ConverterFunc) :
    List (GoType × List ConverterFunc) :=
  if regs.any (fun p => decide (p.1 = t)) then
    regs.map (fun p => if p.1 = t then (p.1, p.2 ++ [f]) else p)
  else regs ++ [(t, [f])]

/-- `AddSourceConverter` (convert.go). -/
def ConverterEngine.AddSourceConverter (ce : ConverterEngine) (t : GoType) (f : ConverterFunc) :
    ConverterEngine :=
  { ce with sourceConverters := addToReg ce.sourceConverters t f }

/-- `AddTargetConverter` (convert.go). -/
def ConverterEngine.AddTargetConverter (ce : ConverterEngine) (t : GoType) (f : ConverterFunc) :
    ConverterEngine :=
  { ce with targetConverters := addToReg ce.targetConverters t f }

/-- `AddInterfaceConverter` (convert.go).  The Go method aborts the process
when `t` is not an interface type; registration simply requires an interface
type here (non-interface registration is not modelled). -/
def ConverterEngine.AddInterfaceConverter (ce : ConverterEngine) (t : GoType) (f : ConverterFunc) :
    ConverterEngine :=
  if t.kind = .kiface then { ce with interfaceConverters := addToReg ce.interfaceConverters t f }
  else ce

/-- Registry lookup keyed by an optional type (`reflect.TypeOf(source)` may
be nil, which matches no registered key). -/
def lookupReg (regs : List (GoType × List ConverterFunc)) (t : Option GoType) :
    List ConverterFunc :=
  match t with
  | none => []
  | some tau => ((regs.find? (fun p => decide (p.1 = tau))).map Prod.snd).getD []

/-- Run a registered converter list in order: a returned value is re-sent
through `conv` (the recursive resolution); `ErrNoConversionAvailable` falls
through to the next function; any other error aborts with that error.
`none` means the whole list fell through. -/
def runFuncs (conv : GoVal → GoType → Outcome) :
    List ConverterFunc → GoVal → GoType → Option Outcome
  | [], _, _ => none
  | f :: rest, v, t =>
    match f v t with
    | .ok r => some (conv r t)
    | .error e =>
      if e = .errNoConversionAvailable then runFuncs conv rest v t else some (.err e)

/-- The `source.(ConverterTo)` step: if the source's dynamic type implements
the capability, invoke it with the same success/fall-through/abort handling
as a registered converter. -/
def tryConverterTo (conv : GoVal → GoType → Outcome) (prog : GoProgram)
    (sourceType : Option GoType) (v : GoVal) (t : GoType) : Option Outcome :=
  match sourceType with
  | none => none
  | some tau =>
    match prog.converterTo tau with
    | none => none
    | some f =>
      match f v t with
      | .ok r => some (conv r t)
      | .error e => if e = .errNoConversionAvailable then none else some (.err e)

/-- The inner loop over one interface entry's converter list.  Go evaluates
`sourceType.Implements(itype)` before each call, which panics when
`sourceType` is the nil `reflect.Type`. -/
def runIfaceFuncs (conv : GoVal → GoType → Outcome) (prog : GoProgram) (itype : GoType)
    (sourceType : Option GoType) :
    List ConverterFunc → GoVal → GoType → Option Outcome
  | [], _, _ => none
  | f :: rest, v, t =>
    match sourceType with
    | none => some .panicked
    | some tau =>
      if prog.implements tau itype then
        match f v t with
        | .ok r => some (conv r t)
        | .error e =>
          if e = .errNoConversionAvailable then runIfaceFuncs conv prog itype sourceType rest v t
          else some (.err e)
      else runIfaceFuncs conv prog itype sourceType rest v t

/-- The loop over the interface-converter registry. -/
def runIface (conv : GoVal → GoType → Outcome) (prog : GoProgram) :
    List (GoType × List ConverterFunc) → Option GoType → GoVal → GoType → Option Outcome
  | [], _, _, _ => none
  | (itype, fs) :: rest, sourceType, v, t =>
    match runIfaceFuncs conv prog itype sourceType fs v t with
    | some o => some o
    | none => runIface conv prog rest sourceType v t

/-- The "conversion to string" block of `Convert`: for a string-kinded
target, use the source's `fmt.Stringer` if implemented, else format
bool/int/uint/float sources with strconv; other source kinds fall through.
A nil source reaches `sourceType.Kind()` and panics. -/
def tryToString (prog : GoProgram) (sourceType : Option GoType) (v : GoVal) (t : GoType) :
    Option Outcome :=
  if t.kind = .kstring then
    match sourceType with
    | some tau =>
      match prog.stringer tau with
      | some f => some (.ok (kind2Exact (.vstring goStringT (f v)) t))
      | none =>
        match tau.kind with
        | .kbool => some (.ok (kind2Exact (.vstring goStringT (formatBool (asBool v))) t))
        | .kint | .kint8 | .kint16 | .kint32 | .kint64 =>
          some (.ok (kind2Exact (.vstring goStringT (formatInt (asInt v))) t))
        | .kuint | .kuint8 | .kuint16 | .kuint32 | .kuint64 =>
          some (.ok (kind2Exact (.vstring goStringT (formatNat (asUint v))) t))
        | .kfloat32 | .kfloat64 =>
          some (.ok (kind2Exact (.vstring goStringT (formatFloat (asRat v))) t))
        | _ => none
    | none => some .panicked
  else none

/-- Wrap one strconv parse result as the block outcome: a parsed value is
re-encoded into the exact target type with `kind2Exact`; a parse error is
returned verbatim (as the `*strconv.NumError`). -/
def parseArm (res : Except ParseErr GoVal) (t : GoType) : Option Outcome :=
  match res with
  | .ok w => some (.ok (kind2Exact w t))
  | .error pe => some (.err (.numError pe))

/-- The "parse from string" block of `Convert`: for a string-kinded source,
parse bool/int/uint/float targets with strconv, propagating parse errors
verbatim; other target kinds fall through.  Evaluating `sourceType.Kind()`
on a nil source panics. -/
def tryParse (prog : GoProgram) (sourceType : Option GoType) (v : GoVal) (t : GoType) :
    Option Outcome :=
  match sourceType with
  | none => some .panicked
  | some tau =>
    if tau.kind = .kstring then
      match t.kind with
      | .kbool => parseArm ((parseBool (asString v)).map (fun b => .vbool goBoolT b)) t
      | .kint | .kint8 | .kint16 | .kint32 | .kint64 =>
        parseArm ((parseInt (asString v) t.kind.width).map (fun i => .vint goInt64T i)) t
      | .kuint | .kuint8 | .kuint16 | .kuint32 | .kuint64 =>
        parseArm ((parseUint (asString v) t.kind.width).map (fun m => .vuint goUint64T m)) t
      | .kfloat32 | .kfloat64 =>
        parseArm ((parseFloat (asString v) t.kind.width).map (fun q => .vfloat goFloat64T q)) t
      | _ => none
    else none

/-- Go `==` based insertion (`reflect.Value.SetMapIndex`): replace the value
under an equal key, else append the entry. -/
def mapInsert (m : List (GoVal × GoVal)) (k v : GoVal) : List (GoVal × GoVal) :=
  if m.any (fun p => decide (p.1 = k)) then
    m.map (fun p => if p.1 = k then (p.1, v) else p)
  else m ++ [(k, v)]

/-- Map lookup under Go `==` on keys. -/
def mapLookup (m : List (GoVal × GoVal)) (k : GoVal) : Option GoVal :=
  (m.find? (fun p => decide (p.1 = k))).map Prod.snd

/-- The element loop of `convertSlice` (convert.go): convert each element in
order against the target element type, aborting on the first failure. -/
def convertSliceGo (conv : GoVal → GoType → Outcome) :
    List GoVal → GoType → GoType → List GoVal → Outcome
  | [], _, t, acc => .ok (.vslice t acc.reverse)
  | x :: xs, telem, t, acc =>
    match conv x telem with
    | .ok w => convertSliceGo conv xs telem t (w :: acc)
    | .err e => .err e
    | .panicked => .panicked
    | .outOfFuel => .outOfFuel

/-- `convertSlice` (convert.go) with the recursive `Convert` abstracted as
`conv`. -/
def convertSliceF (conv : GoVal → GoType → Outcome) (source : GoVal) (targetType : GoType) :
    Outcome :=
  convertSliceGo conv (asElems source) targetType.elemType targetType []

/-- The entry loop of `convertMap` (convert.go): for each source entry,
convert the value, then the key, and insert; abort on the first failure. -/
def convertMapGo (conv : GoVal → GoType → Outcome) :
    List (GoVal × GoVal) → GoType → GoType → GoType → List (GoVal × GoVal) → Outcome
  | [], _, _, t, acc => .ok (.vmap t acc)
  | (k, x) :: rest, telem, tkey, t, acc =>
    match conv x telem with
    | .ok w =>
      match conv k tkey with
      | .ok kw => convertMapGo conv rest telem tkey t (mapInsert acc kw w)
      | .err e => .err e
      | .panicked => .panicked
      | .outOfFuel => .outOfFuel
    | .err e => .err e
    | .panicked => .panicked
    | .outOfFuel => .outOfFuel

/-- `convertMap` (convert.go) with the recursive `Convert` abstracted as
`conv`. -/
def convertMapF (conv : GoVal → GoType → Outcome) (source : GoVal) (targetType : GoType) :
    Outcome :=
  convertMapGo conv (asEntries source) targetType.elemType targetType.keyType targetType []

/-- The slice-conversion dispatch of `Convert`. -/
def trySlice (conv : GoVal → GoType → Outcome) (sourceType : Option GoType) (v : GoVal)
    (t : GoType) : Option Outcome :=
  match sourceType with
  | none => none
  | some tau =>
    if tau.kind = .kslice ∧ t.kind = .kslice then some (convertSliceF conv v t) else none

/-- The map-conversion dispatch of `Convert`. -/
def tryMap (conv : GoVal → GoType → Outcome) (sourceType : Option GoType) (v : GoVal)
    (t : GoType) : Option Outcome :=
  match sourceType with
  | none => none
  | some tau =>
    if tau.kind = .kmap ∧ t.kind = .kmap then some (convertMapF conv v t) else none

/-- One unfolding of the body of `Convert` (convert.go, lines 115-241), with
the recursive call abstracted as `conv`.  The strategy chain in source
order: identity, source-keyed converters, `ConverterTo`, target-keyed
converters, interface converters, string formatting, string parsing, slice
and map conversion, reflect kind conversion, and finally
`ErrIncompatibleType`.  A nil source survives the converter stages (a nil
key matches no registration, nil implements nothing) and panics at the first
`sourceType.Kind()` call. -/
def convertBody (conv : GoVal → GoType → Outcome) (prog : GoProgram) (ce : ConverterEngine)
    (source : GoVal) (targetType : GoType) : Outcome :=
  let sourceType := typeOf? source
  if sourceType = some targetType then .ok source
  else
    match runFuncs conv (lookupReg ce.sourceConverters sourceType) source targetType with
    | some o => o
    | none =>
      match tryConverterTo conv prog sourceType source targetType with
      | some o => o
      | none =>
        match runFuncs conv (lookupReg ce.targetConverters (some targetType)) source targetType with
        | some o => o
        | none =>
          match runIface conv prog ce.interfaceConverters sourceType source targetType with
          | some o => o
          | none =>
            match tryToString prog sourceType source targetType with
            | some o => o
            | none =>
              match tryParse prog sourceType source targetType with
              | some o => o
              | none =>
                match trySlice conv sourceType source targetType with
                | some o => o
                | none =>
                  match tryMap conv sourceType source targetType with
                  | some o => o
                  | none =>
                    match sourceType with
                    | some tau =>
                      if convertibleTo prog tau targetType then
                        .ok (reflectConvert source targetType)
                      else .err .errIncompatibleType
                    | none => .panicked

/-- `Convert` (convert.go), fuel-indexed: each recursive resolution
(re-dispatch of a converter result, or a container element) consumes one
unit of fuel. -/
def ConverterEngine.Convert (ce : ConverterEngine) (prog : GoProgram) :
    Nat → GoVal → GoType → Outcome
  | 0, _, _ => .outOfFuel
  | fuel + 1, source, targetType =>
    convertBody (ce.Convert prog fuel) prog ce source targetType

/-- `convertSlice` (convert.go) as a method, at a given fuel for the
element conversions. -/
def ConverterEngine.convertSlice (ce : ConverterEngine) (prog : GoProgram) (fuel : Nat)
    (source : GoVal) (targetType : GoType) : Outcome :=
  convertSliceF (ce.Convert prog fuel) source targetType

/-- `convertMap` (convert.go) as a method, at a given fuel for the
key/value conversions. -/
def ConverterEngine.convertMap (ce : ConverterEngine) (prog : GoProgram) (fuel : Nat)
    (source : GoVal) (targetType : GoType) : Outcome :=
  convertMapF (ce.Convert prog fuel) source targetType

/-- `Set` (convert.go): the target must be a pointer, else
`ErrExpectedPointer`; otherwise convert the source to the pointee type and,
on success, write it through the pointer.  The functional model returns the
updated pointer value; a conversion failure returns the error with the
pointee untouched. -/
def ConverterEngine.Set (ce : ConverterEngine) (prog : GoProgram) (fuel : Nat)
    (target source : GoVal) : Outcome :=
  match target with
  | .vptr et _ =>
    match ce.Convert prog fuel source et with
    | .ok c => .ok (.vptr et c)
    | .err e => .err e
    | .panicked => .panicked
    | .outOfFuel => .outOfFuel
  | _ => .err .errExpectedPointer


theorem typeOf_reflectConvert (v : GoVal) (t : GoType) (h : t.kind ≠ .kiface) :
    typeOf? (reflectConvert v t) = some t := by
  cases t with
  | ifaceT n => exact absurd rfl h
  | prim n k =>
    cases k <;> (try exact absurd rfl h) <;> cases v <;>
      simp only [reflectConvert, GoType.kind, GoType.elemType] <;>
      (try split) <;> (try split) <;> simp [typeOf?]
  | sliceT e =>
    cases v <;> simp only [reflectConvert, GoType.kind, GoType.elemType] <;>
      (try split) <;> (try split) <;> simp [typeOf?]
  | mapT k vv =>
    cases v <;> simp only [reflectConvert, GoType.kind] <;> simp [typeOf?]
  | structT n =>
    cases v <;> simp only [reflectConvert, GoType.kind] <;> simp [typeOf?]
  | ptrT e =>
    cases v <;> simp only [reflectConvert, GoType.kind, GoType.elemType] <;> simp [typeOf?]

theorem typeOf_kind2Exact (v : GoVal) (t : GoType) (h : t.kind ≠ .kiface) :
    typeOf? (kind2Exact v t) = some t :=
  typeOf_reflectConvert v t h

theorem runFuncs_some (conv : GoVal → GoType → Outcome) (fs : List ConverterFunc)
    (v : GoVal) (t : GoType) (o : Outcome) (h : runFuncs conv fs v t = some o) :
    (∃ r2, o = conv r2 t) ∨ ∃ e, o = .err e ∧ e ≠ GoError.errNoConversionAvailable := by
  induction fs with
  | nil => simp [runFuncs] at h
  | cons f rest ih =>
    cases hf : f v t with
    | ok r =>
      simp only [runFuncs, hf] at h
      exact .inl ⟨r, (Option.some.inj h).symm⟩
    | error e =>
      simp only [runFuncs, hf] at h
      by_cases he : e = GoError.errNoConversionAvailable
      · rw [if_pos he] at h; exact ih h
      · rw [if_neg he] at h; exact .inr ⟨e, (Option.some.inj h).symm, he⟩

theorem tryConverterTo_some (conv : GoVal → GoType → Outcome) (prog : GoProgram)
    (st : Option GoType) (v : GoVal) (t : GoType) (o : Outcome)
    (h : tryConverterTo conv prog st v t = some o) :
    (∃ r2, o = conv r2 t) ∨ ∃ e, o = .err e ∧ e ≠ GoError.errNoConversionAvailable := by
  cases st with
  | none => simp [tryConverterTo] at h
  | some tau =>
    cases hc : prog.converterTo tau with
    | none => simp [tryConverterTo, hc] at h
    | some f =>
      cases hf : f v t with
      | ok r =>
        simp only [tryConverterTo, hc, hf] at h
        exact .inl ⟨r, (Option.some.inj h).symm⟩
      | error e =>
        simp only [tryConverterTo, hc, hf] at h
        by_cases he : e = GoError.errNoConversionAvailable
        · rw [if_pos he] at h; simp at h
        · rw [if_neg he] at h; exact .inr ⟨e, (Option.some.inj h).symm, he⟩

theorem runIfaceFuncs_some (conv : GoVal → GoType → Outcome) (prog : GoProgram)
    (itype : GoType) (st : Option GoType) (fs : List ConverterFunc)
    (v : GoVal) (t : GoType) (o : Outcome) (h : runIfaceFuncs conv prog itype st fs v t = some o) :
    (∃ r2, o = conv r2 t) ∨ (∃ e, o = .err e ∧ e ≠ GoError.errNoConversionAvailable) ∨
      o = .panicked := by
  induction fs with
  | nil => simp [runIfaceFuncs] at h
  | cons f rest ih =>
    cases st with
    | none =>
      simp only [runIfaceFuncs] at h
      exact .inr (.inr (Option.some.inj h).symm)
    | some tau =>
      by_cases hi : prog.implements tau itype
      · cases hf : f v t with
        | ok r =>
          simp only [runIfaceFuncs, hi, if_true, hf] at h
          exact .inl ⟨r, (Option.some.inj h).symm⟩
        | error e =>
          simp only [runIfaceFuncs, hi, if_true, hf] at h
          by_cases he : e = GoError.errNoConversionAvailable
          · rw [if_pos he] at h; exact ih h
          · rw [if_neg he] at h; exact .inr (.inl ⟨e, (Option.some.inj h).symm, he⟩)
      · simp only [runIfaceFuncs, hi, if_false] at h
        exact ih h

theorem runIface_some (conv : GoVal → GoType → Outcome) (prog : GoProgram)
    (entries : List (GoType × List ConverterFunc)) (st : Option GoType)
    (v : GoVal) (t : GoType) (o : Outcome) (h : runIface conv prog entries st v t = some o) :
    (∃ r2, o = conv r2 t) ∨ (∃ e, o = .err e ∧ e ≠ GoError.errNoConversionAvailable) ∨
      o = .panicked := by
  induction entries with
  | nil => simp [runIface] at h
  | cons p rest ih =>
    obtain ⟨itype, fs⟩ := p
    cases hr : runIfaceFuncs conv prog itype st fs v t with
    | none =>
      simp only [runIface, hr] at h
      exact ih h
    | some o2 =>
      simp only [runIface, hr] at h
      exact (Option.some.inj h) ▸ runIfaceFuncs_some conv prog itype st fs v t o2 hr

theorem tryToString_some (prog : GoProgram) (st : Option GoType) (v : GoVal) (t : GoType)
    (o : Outcome) (h : tryToString prog st v t = some o) :
    (∃ w, o = .ok w ∧ typeOf? w = some t) ∨ o = .panicked := by
  by_cases hk : t.kind = .kstring
  · have hnotiface : t.kind ≠ .kiface := by rw [hk]; simp
    cases st with
    | none =>
      simp only [tryToString, hk, if_true] at h
      exact .inr (Option.some.inj h).symm
    | some tau =>
      cases hs : prog.stringer tau with
      | some f =>
        simp only [tryToString, hk, if_true, hs] at h
        exact .inl ⟨_, (Option.some.inj h).symm, typeOf_kind2Exact _ _ hnotiface⟩
      | none =>
        cases htau : tau.kind <;>
          simp only [tryToString, hk, if_true, hs, htau, Option.some.injEq] at h <;>
          first
          | exact absurd h (by simp)
          | exact .inl ⟨_, h.symm, typeOf_kind2Exact _ _ hnotiface⟩
  · simp [tryToString, hk] at h

theorem parseArm_some (res : Except ParseErr GoVal) (t : GoType) (o : Outcome)
    (hni : t.kind ≠ .kiface) (h : parseArm res t = some o) :
    (∃ w, o = .ok w ∧ typeOf? w = some t) ∨
      ∃ e, o = .err e ∧ e ≠ GoError.errNoConversionAvailable := by
  cases res with
  | ok w =>
    simp only [parseArm] at h
    exact .inl ⟨_, (Option.some.inj h).symm, typeOf_kind2Exact _ _ hni⟩
  | error pe =>
    simp only [parseArm] at h
    exact .inr ⟨_, (Option.some.inj h).symm, by simp⟩

theorem tryParse_some (prog : GoProgram) (st : Option GoType) (v : GoVal) (t : GoType)
    (o : Outcome) (h : tryParse prog st v t = some o) :
    (∃ w, o = .ok w ∧ typeOf? w = some t) ∨
      (∃ e, o = .err e ∧ e ≠ GoError.errNoConversionAvailable) ∨ o = .panicked := by
  cases st with
  | none =>
    simp only [tryParse] at h
    exact .inr (.inr (Option.some.inj h).symm)
  | some tau =>
    by_cases hk : tau.kind = .kstring
    · have harm : ∀ res, parseArm res t = some o → t.kind ≠ .kiface →
          (∃ w, o = .ok w ∧ typeOf? w = some t) ∨
            (∃ e, o = .err e ∧ e ≠ GoError.errNoConversionAvailable) ∨ o = .panicked := by
        intro res hres hni
        rcases parseArm_some res t o hni hres with h1 | h2
        · exact .inl h1
        · exact .inr (.inl h2)
      cases ht : t.kind <;>
        simp only [tryParse, hk, if_true, ht] at h <;>
        first
        | exact absurd h (by simp)
        | exact harm _ h (by rw [ht]; simp)
    · simp [tryParse, hk] at h

theorem convertSliceGo_ok_shape (conv : GoVal → GoType → Outcome) (es : List GoVal)
    (telem t : GoType) (acc : List GoVal) (r : GoVal)
    (h : convertSliceGo conv es telem t acc = .ok r) : ∃ ws, r = .vslice t ws := by
  induction es generalizing acc with
  | nil =>
    simp only [convertSliceGo] at h
    exact ⟨acc.reverse, ((Outcome.ok.inj h)).symm⟩
  | cons x xs ih =>
    simp only [convertSliceGo] at h
    cases hc : conv x telem with
    | ok w => rw [hc] at h; exact ih (w :: acc) h
    | err e => rw [hc] at h; exact absurd h (by simp)
    | panicked => rw [hc] at h; exact absurd h (by simp)
    | outOfFuel => rw [hc] at h; exact absurd h (by simp)

theorem convertSliceGo_err_source (conv : GoVal → GoType → Outcome) (es : List GoVal)
    (telem t : GoType) (acc : List GoVal) (e : GoError)
    (h : convertSliceGo conv es telem t acc = .err e) : ∃ x ∈ es, conv x telem = .err e := by
  induction es generalizing acc with
  | nil => simp [convertSliceGo] at h
  | cons x xs ih =>
    simp only [convertSliceGo] at h
    cases hc : conv x telem with
    | ok w =>
      rw [hc] at h
      obtain ⟨y, hy, hcy⟩ := ih (w :: acc) h
      exact ⟨y, List.mem_cons_of_mem _ hy, hcy⟩
    | err e2 =>
      rw [hc] at h
      exact ⟨x, by simp, by rw [hc, Outcome.err.inj h]⟩
    | panicked => rw [hc] at h; exact absurd h (by simp)
    | outOfFuel => rw [hc] at h; exact absurd h (by simp)

theorem convertSliceGo_fuel_source (conv : GoVal → GoType → Outcome) (es : List GoVal)
    (telem t : GoType) (acc : List GoVal)
    (h : convertSliceGo conv es telem t acc = .outOfFuel) :
    ∃ x ∈ es, conv x telem = .outOfFuel := by
  induction es generalizing acc with
  | nil => simp [convertSliceGo] at h
  | cons x xs ih =>
    simp only [convertSliceGo] at h
    cases hc : conv x telem with
    | ok w =>
      rw [hc] at h
      obtain ⟨y, hy, hcy⟩ := ih (w :: acc) h
      exact ⟨y, List.mem_cons_of_mem _ hy, hcy⟩
    | err e2 => rw [hc] at h; exact absurd h (by simp)
    | panicked => rw [hc] at h; exact absurd h (by simp)
    | outOfFuel => exact ⟨x, by simp, hc⟩

theorem convertMapGo_ok_shape (conv : GoVal → GoType → Outcome) (ps : List (GoVal × GoVal))
    (telem tkey t : GoType) (acc : List (GoVal × GoVal)) (r : GoVal)
    (h : convertMapGo conv ps telem tkey t acc = .ok r) : ∃ qs, r = .vmap t qs := by
  induction ps generalizing acc with
  | nil =>
    simp only [convertMapGo] at h
    exact ⟨acc, (Outcome.ok.inj h).symm⟩
  | cons p rest ih =>
    obtain ⟨k, x⟩ := p
    simp only [convertMapGo] at h
    cases hc : conv x telem with
    | ok w =>
      rw [hc] at h
      cases hk : conv k tkey with
      | ok kw => rw [hk] at h; exact ih _ h
      | err e => rw [hk] at h; exact absurd h (by simp)
      | panicked => rw [hk] at h; exact absurd h (by simp)
      | outOfFuel => rw [hk] at h; exact absurd h (by simp)
    | err e => rw [hc] at h; exact absurd h (by simp)
    | panicked => rw [hc] at h; exact absurd h (by simp)
    | outOfFuel => rw [hc] at h; exact absurd h (by simp)

theorem convertMapGo_err_source (conv : GoVal → GoType → Outcome) (ps : List (GoVal × GoVal))
    (telem tkey t : GoType) (acc : List (GoVal × GoVal)) (e : GoError)
    (h : convertMapGo conv ps telem tkey t acc = .err e) :
    ∃ p ∈ ps, conv p.2 telem = .err e ∨ conv p.1 tkey = .err e := by
  induction ps generalizing acc with
  | nil => simp [convertMapGo] at h
  | cons p rest ih =>
    obtain ⟨k, x⟩ := p
    simp only [convertMapGo] at h
    cases hc : conv x telem with
    | ok w =>
      rw [hc] at h
      cases hk : conv k tkey with
      | ok kw =>
        rw [hk] at h
        obtain ⟨q, hq, hcq⟩ := ih _ h
        exact ⟨q, List.mem_cons_of_mem _ hq, hcq⟩
      | err e2 => rw [hk] at h; exact ⟨(k, x), by simp, .inr (by rw [hk, Outcome.err.inj h])⟩
      | panicked => rw [hk] at h; exact absurd h (by simp)
      | outOfFuel => rw [hk] at h; exact absurd h (by simp)
    | err e2 => rw [hc] at h; exact ⟨(k, x), by simp, .inl (by rw [hc, Outcome.err.inj h])⟩
    | panicked => rw [hc] at h; exact absurd h (by simp)
    | outOfFuel => rw [hc] at h; exact absurd h (by simp)

theorem convertMapGo_fuel_source (conv : GoVal → GoType → Outcome) (ps : List (GoVal × GoVal))
    (telem tkey t : GoType) (acc : List (GoVal × GoVal))
    (h : convertMapGo conv ps telem tkey t acc = .outOfFuel) :
    ∃ p ∈ ps, conv p.2 telem = .outOfFuel ∨ conv p.1 tkey = .outOfFuel := by
  induction ps generalizing acc with
  | nil => simp [convertMapGo] at h
  | cons p rest ih =>
    obtain ⟨k, x⟩ := p
    simp only [convertMapGo] at h
    cases hc : conv x telem with
    | ok w =>
      rw [hc] at h
      cases hk : conv k tkey with
      | ok kw =>
        rw [hk] at h
        obtain ⟨q, hq, hcq⟩ := ih _ h
        exact ⟨q, List.mem_cons_of_mem _ hq, hcq⟩
      | err e2 => rw [hk] at h; exact absurd h (by simp)
      | panicked => rw [hk] at h; exact absurd h (by simp)
      | outOfFuel => exact ⟨(k, x), by simp, .inr hk⟩
    | err e2 => rw [hc] at h; exact absurd h (by simp)
    | panicked => rw [hc] at h; exact absurd h (by simp)
    | outOfFuel => exact ⟨(k, x), by simp, .inl hc⟩

/-- Exhaustive characterization of one unfolding of the `Convert` body: the
identity case, a converter re-dispatch, a non-sentinel error, a panic, a
fully built value of exactly the target type (string formatting/parsing and
kind coercion; for an interface target the kind-coercion value is the source
unchanged), or slice/map container conversion. -/
theorem convertBody_cases (conv : GoVal → GoType → Outcome) (prog : GoProgram)
    (ce : ConverterEngine) (v : GoVal) (t : GoType) :
    (convertBody conv prog ce v t = .ok v ∧ typeOf? v = some t) ∨
    (∃ r2, convertBody conv prog ce v t = conv r2 t) ∨
    (∃ e, convertBody conv prog ce v t = .err e ∧ e ≠ GoError.errNoConversionAvailable) ∨
    (convertBody conv prog ce v t = .panicked) ∨
    (∃ w, convertBody conv prog ce v t = .ok w ∧
      (t.kind ≠ .kiface → typeOf? w = some t)) ∨
    (convertBody conv prog ce v t = convertSliceF conv v t) ∨
    (convertBody conv prog ce v t = convertMapF conv v t) := by
  unfold convertBody
  by_cases hid : typeOf? v = some t
  · rw [if_pos hid]
    exact .inl ⟨rfl, hid⟩
  · rw [if_neg hid]
    cases h1 : runFuncs conv (lookupReg ce.sourceConverters (typeOf? v)) v t with
    | some o =>
      rcases runFuncs_some conv _ v t o h1 with ⟨r2, ho⟩ | ⟨e, ho, he⟩
      · exact .inr (.inl ⟨r2, ho⟩)
      · exact .inr (.inr (.inl ⟨e, ho, he⟩))
    | none =>
    cases h2 : tryConverterTo conv prog (typeOf? v) v t with
    | some o =>
      rcases tryConverterTo_some conv prog _ v t o h2 with ⟨r2, ho⟩ | ⟨e, ho, he⟩
      · exact .inr (.inl ⟨r2, ho⟩)
      · exact .inr (.inr (.inl ⟨e, ho, he⟩))
    | none =>
    cases h3 : runFuncs conv (lookupReg ce.targetConverters (some t)) v t with
    | some o =>
      rcases runFuncs_some conv _ v t o h3 with ⟨r2, ho⟩ | ⟨e, ho, he⟩
      · exact .inr (.inl ⟨r2, ho⟩)
      · exact .inr (.inr (.inl ⟨e, ho, he⟩))
    | none =>
    cases h4 : runIface conv prog ce.interfaceConverters (typeOf? v) v t with
    | some o =>
      rcases runIface_some conv prog _ _ v t o h4 with ⟨r2, ho⟩ | ⟨e, ho, he⟩ | hp
      · exact .inr (.inl ⟨r2, ho⟩)
      · exact .inr (.inr (.inl ⟨e, ho, he⟩))
      · exact .inr (.inr (.inr (.inl (hp ▸ rfl))))
    | none =>
    cases h5 : tryToString prog (typeOf? v) v t with
    | some o =>
      rcases tryToString_some prog _ v t o h5 with ⟨w, ho, hw⟩ | hp
      · exact .inr (.inr (.inr (.inr (.inl ⟨w, ho ▸ rfl, fun _ => hw⟩))))
      · exact .inr (.inr (.inr (.inl (hp ▸ rfl))))
    | none =>
    cases h6 : tryParse prog (typeOf? v) v t with
    | some o =>
      rcases tryParse_some prog _ v t o h6 with ⟨w, ho, hw⟩ | ⟨e, ho, he⟩ | hp
      · exact .inr (.inr (.inr (.inr (.inl ⟨w, ho ▸ rfl, fun _ => hw⟩))))
      · exact .inr (.inr (.inl ⟨e, ho ▸ rfl, he⟩))
      · exact .inr (.inr (.inr (.inl (hp ▸ rfl))))
    | none =>
    cases h7 : trySlice conv (typeOf? v) v t with
    | some o =>
      have : o = convertSliceF conv v t := by
        cases hst : typeOf? v with
        | none => rw [hst] at h7; simp [trySlice] at h7
        | some tau =>
          rw [hst] at h7
          simp only [trySlice] at h7
          by_cases hc : tau.kind = .kslice ∧ t.kind = .kslice
          · rw [if_pos hc] at h7; exact (Option.some.inj h7).symm
          · rw [if_neg hc] at h7; exact absurd h7 (by simp)
      exact .inr (.inr (.inr (.inr (.inr (.inl (this ▸ rfl))))))
    | none =>
    cases h8 : tryMap conv (typeOf? v) v t with
    | some o =>
      have : o = convertMapF conv v t := by
        cases hst : typeOf? v with
        | none => rw [hst] at h8; simp [tryMap] at h8
        | some tau =>
          rw [hst] at h8
          simp only [tryMap] at h8
          by_cases hc : tau.kind = .kmap ∧ t.kind = .kmap
          · rw [if_pos hc] at h8; exact (Option.some.inj h8).symm
          · rw [if_neg hc] at h8; exact absurd h8 (by simp)
      exact .inr (.inr (.inr (.inr (.inr (.inr (this ▸ rfl))))))
    | none =>
    cases hst : typeOf? v with
    | none => exact .inr (.inr (.inr (.inl rfl)))
    | some tau =>
      by_cases hc : convertibleTo prog tau t
      · refine .inr (.inr (.inr (.inr (.inl ⟨reflectConvert v t, ?_, ?_⟩))))
        · simp [hc]
        · exact fun hni => typeOf_reflectConvert v t hni
      · refine .inr (.inr (.inl ⟨.errIncompatibleType, ?_, by simp⟩))
        simp [hc]

theorem convert_ok_type (prog : GoProgram) (ce : ConverterEngine) :
    ∀ (fuel : Nat) (v : GoVal) (t : GoType), t.kind ≠ .kiface →
      ∀ r, ce.Convert prog fuel v t = .ok r → typeOf? r = some t := by
  intro fuel
  induction fuel with
  | zero => intro v t hni r h; simp [ConverterEngine.Convert] at h
  | succ fuel ih =>
    intro v t hni r h
    have hb : convertBody (ce.Convert prog fuel) prog ce v t = .ok r := h
    rcases convertBody_cases (ce.Convert prog fuel) prog ce v t with
      ⟨he, hty⟩ | ⟨r2, he⟩ | ⟨e, he, _⟩ | he | ⟨w, he, hw⟩ | he | he
    · rw [he] at hb; exact (Outcome.ok.inj hb) ▸ hty
    · rw [he] at hb; exact ih r2 t hni r hb
    · rw [he] at hb; exact absurd hb (by simp)
    · rw [he] at hb; exact absurd hb (by simp)
    · rw [he] at hb; exact (Outcome.ok.inj hb) ▸ hw hni
    · rw [he] at hb
      obtain ⟨ws, hws⟩ :=
        convertSliceGo_ok_shape (ce.Convert prog fuel) (asElems v) t.elemType t [] r hb
      rw [hws]; simp [typeOf?]
    · rw [he] at hb
      obtain ⟨qs, hqs⟩ :=
        convertMapGo_ok_shape (ce.Convert prog fuel) (asEntries v) t.elemType t.keyType t [] r hb
      rw [hqs]; simp [typeOf?]

theorem convert_never_sentinel (prog : GoProgram) (ce : ConverterEngine) :
    ∀ (fuel : Nat) (v : GoVal) (t : GoType),
      ce.Convert prog fuel v t ≠ .err .errNoConversionAvailable := by
  intro fuel
  induction fuel with
  | zero => intro v t h; simp [ConverterEngine.Convert] at h
  | succ fuel ih =>
    intro v t h
    have hb : convertBody (ce.Convert prog fuel) prog ce v t =
        .err .errNoConversionAvailable := h
    rcases convertBody_cases (ce.Convert prog fuel) prog ce v t with
      ⟨he, _⟩ | ⟨r2, he⟩ | ⟨e, he, hne⟩ | he | ⟨w, he, _⟩ | he | he
    · rw [he] at hb; exact absurd hb (by simp)
    · rw [he] at hb; exact ih r2 t hb
    · rw [he] at hb; exact hne (Outcome.err.inj hb)
    · rw [he] at hb; exact absurd hb (by simp)
    · rw [he] at hb; exact absurd hb (by simp)
    · rw [he] at hb
      obtain ⟨x, _, hcx⟩ :=
        convertSliceGo_err_source (ce.Convert prog fuel) (asElems v) t.elemType t [] _ hb
      exact ih x t.elemType hcx
    · rw [he] at hb
      obtain ⟨p, _, hcp⟩ :=
        convertMapGo_err_source (ce.Convert prog fuel) (asEntries v) t.elemType t.keyType t [] _ hb
      cases hcp with
      | inl hcp => exact ih p.2 t.elemType hcp
      | inr hcp => exact ih p.1 t.keyType hcp

theorem runFuncs_sentinel_front (conv : GoVal → GoType → Outcome) (pre rest : List ConverterFunc)
    (v : GoVal) (t : GoType)
    (hpre : ∀ g ∈ pre, g v t = .error .errNoConversionAvailable) :
    runFuncs conv (pre ++ rest) v t = runFuncs conv rest v t := by
  induction pre with
  | nil => rfl
  | cons g gs ih =>
    have hg := hpre g (by simp)
    simp only [List.cons_append, runFuncs, hg, if_pos rfl]
    exact ih (fun x hx => hpre x (List.mem_cons_of_mem _ hx))

theorem runFuncs_all_sentinel (conv : GoVal → GoType → Outcome) (fs : List ConverterFunc)
    (v : GoVal) (t : GoType)
    (hfs : ∀ g ∈ fs, g v t = .error .errNoConversionAvailable) :
    runFuncs conv fs v t = none := by
  have := runFuncs_sentinel_front conv fs [] v t hfs
  simpa using this

theorem runIfaceFuncs_sentinel_front (conv : GoVal → GoType → Outcome) (prog : GoProgram)
    (itype tau : GoType) (pre rest : List ConverterFunc) (v : GoVal) (t : GoType)
    (hpre : ∀ g ∈ pre, g v t = .error .errNoConversionAvailable) :
    runIfaceFuncs conv prog itype (some tau) (pre ++ rest) v t =
      runIfaceFuncs conv prog itype (some tau) rest v t := by
  induction pre with
  | nil => rfl
  | cons g gs ih =>
    have hg := hpre g (by simp)
    by_cases hi : prog.implements tau itype
    · simp only [List.cons_append, runIfaceFuncs, hi, if_true, hg, if_pos rfl]
      exact ih (fun x hx => hpre x (List.mem_cons_of_mem _ hx))
    · simp only [List.cons_append, runIfaceFuncs, hi, if_false]
      exact ih (fun x hx => hpre x (List.mem_cons_of_mem _ hx))

theorem convert_source_abort (prog : GoProgram)
    (tcs ics : List (GoType × List ConverterFunc)) (tau t : GoType) (v : GoVal)
    (pre post : List ConverterFunc) (f : ConverterFunc) (e : GoError) (fuel : Nat)
    (htau : typeOf? v = some tau) (hne : tau ≠ t)
    (hpre : ∀ g ∈ pre, g v t = .error .errNoConversionAvailable)
    (hf : f v t = .error e) (hes : e ≠ .errNoConversionAvailable) :
    (ConverterEngine.mk [(tau, pre ++ f :: post)] tcs ics).Convert prog (fuel + 1) v t =
      .err e := by
  have hlook : lookupReg [(tau, pre ++ f :: post)] (some tau) = pre ++ f :: post := by
    simp [lookupReg]
  have hrun : runFuncs ((ConverterEngine.mk [(tau, pre ++ f :: post)] tcs ics).Convert prog fuel)
      (pre ++ f :: post) v t = some (.err e) := by
    rw [runFuncs_sentinel_front _ pre (f :: post) v t hpre]
    simp [runFuncs, hf, hes]
  show convertBody _ prog _ v t = .err e
  unfold convertBody
  simp only [htau, hlook, hrun]
  rw [if_neg (by simpa using hne)]

theorem convert_converterTo_abort (prog : GoProgram)
    (tcs ics : List (GoType × List ConverterFunc)) (tau t : GoType) (v : GoVal)
    (sc : List ConverterFunc) (f : GoVal → GoType → Except GoError GoVal) (e : GoError)
    (fuel : Nat)
    (htau : typeOf? v = some tau) (hne : tau ≠ t)
    (hsc : ∀ g ∈ sc, g v t = .error .errNoConversionAvailable)
    (hct : prog.converterTo tau = some f)
    (hf : f v t = .error e) (hes : e ≠ .errNoConversionAvailable) :
    (ConverterEngine.mk [(tau, sc)] tcs ics).Convert prog (fuel + 1) v t = .err e := by
  have hlook : lookupReg [(tau, sc)] (some tau) = sc := by simp [lookupReg]
  have hrun : runFuncs ((ConverterEngine.mk [(tau, sc)] tcs ics).Convert prog fuel) sc v t =
      none := runFuncs_all_sentinel _ sc v t hsc
  have hctres : tryConverterTo ((ConverterEngine.mk [(tau, sc)] tcs ics).Convert prog fuel)
      prog (some tau) v t = some (.err e) := by
    simp [tryConverterTo, hct, hf, hes]
  show convertBody _ prog _ v t = .err e
  unfold convertBody
  simp only [htau, hlook, hrun, hctres]
  rw [if_neg (by simpa using hne)]

theorem convert_target_abort (prog : GoProgram) (ics : List (GoType × List ConverterFunc))
    (tau t : GoType) (v : GoVal) (sc : List ConverterFunc)
    (ctf : Option (GoVal → GoType → Except GoError GoVal))
    (pre post : List ConverterFunc) (f : ConverterFunc) (e : GoError) (fuel : Nat)
    (htau : typeOf? v = some tau) (hne : tau ≠ t)
    (hsc : ∀ g ∈ sc, g v t = .error .errNoConversionAvailable)
    (hct : prog.converterTo tau = ctf)
    (hctf : ∀ g, ctf = some g → g v t = .error .errNoConversionAvailable)
    (hpre : ∀ g ∈ pre, g v t = .error .errNoConversionAvailable)
    (hf : f v t = .error e) (hes : e ≠ .errNoConversionAvailable) :
    (ConverterEngine.mk [(tau, sc)] [(t, pre ++ f :: post)] ics).Convert prog (fuel + 1) v t =
      .err e := by
  have hlook : lookupReg [(tau, sc)] (some tau) = sc := by simp [lookupReg]
  have hlook2 : lookupReg [(t, pre ++ f :: post)] (some t) = pre ++ f :: post := by
    simp [lookupReg]
  have hrun : runFuncs ((ConverterEngine.mk [(tau, sc)] [(t, pre ++ f :: post)] ics).Convert
      prog fuel) sc v t = none := runFuncs_all_sentinel _ sc v t hsc
  have hctres : tryConverterTo ((ConverterEngine.mk [(tau, sc)] [(t, pre ++ f :: post)]
      ics).Convert prog fuel) prog (some tau) v t = none := by
    cases hcase : ctf with
    | none => rw [hcase] at hct; simp [tryConverterTo, hct]
    | some g =>
      rw [hcase] at hct
      have hg := hctf g hcase
      simp [tryConverterTo, hct, hg]
  have hrun2 : runFuncs ((ConverterEngine.mk [(tau, sc)] [(t, pre ++ f :: post)] ics).Convert
      prog fuel) (pre ++ f :: post) v t = some (.err e) := by
    rw [runFuncs_sentinel_front _ pre (f :: post) v t hpre]
    simp [runFuncs, hf, hes]
  show convertBody _ prog _ v t = .err e
  unfold convertBody
  simp only [htau, hlook, hlook2, hrun, hctres, hrun2]
  rw [if_neg (by simpa using hne)]

theorem convert_iface_abort (prog : GoProgram) (tau t itype : GoType) (v : GoVal)
    (pre post : List ConverterFunc) (f : ConverterFunc) (e : GoError) (fuel : Nat)
    (htau : typeOf? v = some tau) (hne : tau ≠ t)
    (hct : prog.converterTo tau = none)
    (himpl : prog.implements tau itype = true)
    (hpre : ∀ g ∈ pre, g v t = .error .errNoConversionAvailable)
    (hf : f v t = .error e) (hes : e ≠ .errNoConversionAvailable) :
    (ConverterEngine.mk [] [] [(itype, pre ++ f :: post)]).Convert prog (fuel + 1) v t =
      .err e := by
  have hiface : runIface ((ConverterEngine.mk [] [] [(itype, pre ++ f :: post)]).Convert
      prog fuel) prog [(itype, pre ++ f :: post)] (some tau) v t = some (.err e) := by
    have hfs : runIfaceFuncs ((ConverterEngine.mk [] [] [(itype, pre ++ f :: post)]).Convert
        prog fuel) prog itype (some tau) (pre ++ f :: post) v t = some (.err e) := by
      rw [runIfaceFuncs_sentinel_front _ prog itype tau pre (f :: post) v t hpre]
      simp [runIfaceFuncs, himpl, hf, hes]
    simp [runIface, hfs]
  have hctres : tryConverterTo ((ConverterEngine.mk [] [] [(itype, pre ++ f :: post)]).Convert
      prog fuel) prog (some tau) v t = none := by simp [tryConverterTo, hct]
  show convertBody _ prog _ v t = .err e
  unfold convertBody
  simp only [htau, hctres, hiface, lookupReg, List.find?, runFuncs]
  rw [if_neg (by simpa using hne)]

/-- The empty interface type (`interface` with no methods, i.e. Go `any`). -/
def anyT : GoType := .ifaceT "any"

/-- A program where every type implements every interface (enough to model
conversion targets of the empty interface type). -/
def progImplAll : GoProgram := ⟨fun _ => none, fun _ => none, fun _ _ => true⟩

/-- A converter that always signals `ErrNoConversionAvailable`. -/
def sentinelFunc : ConverterFunc := fun _ _ => .error .errNoConversionAvailable

/-- A converter that always fails with a fixed custom error. -/
def constErr7 : ConverterFunc := fun _ _ => .error (.custom 7)

/-- **C1** (amended): for every program, engine, fuel, source value and
target type whose kind is not interface, if `Convert` succeeds then the
returned value's exact runtime type equals the target type descriptor, on
every path (identity, converter re-dispatch, string formatting/parsing,
slice and map construction, kind-level coercion).  For an interface-kinded
target the result keeps its concrete dynamic type instead (see the
counterexample). -/
theorem C1_exact_target_type (prog : GoProgram) (ce : ConverterEngine) (fuel : Nat)
    (v : GoVal) (t : GoType) (hni : t.kind ≠ .kiface) (r : GoVal)
    (h : ce.Convert prog fuel v t = .ok r) : typeOf? r = some t :=
  convert_ok_type prog ce fuel v t hni r h

/-- **C1** counterexample: converting `int(5)` to the empty interface type
succeeds and returns a value whose exact runtime type is still `int`, not
the interface type — so the claim fails as stated for interface targets. -/
theorem C1_counterexample :
    ConverterEngine.New.Convert progImplAll 1 (.vint goIntT 5) anyT = .ok (.vint goIntT 5) ∧
      typeOf? (GoVal.vint goIntT 5) ≠ some anyT :=
  ⟨rfl, by decide⟩

/-- **C1** witness: `Convert(float64(5.5), int)` succeeds with `int(5)`,
whose runtime type is exactly `int`. -/
theorem C1_witness :
    ConverterEngine.New.Convert prog0 1 (.vfloat goFloat64T (11 / 2)) goIntT =
      .ok (.vint goIntT 5) ∧ typeOf? (GoVal.vint goIntT 5) = some goIntT :=
  ⟨by decide, C1_exact_target_type prog0 ConverterEngine.New 1 (.vfloat goFloat64T (11 / 2)) goIntT
    (by decide) (.vint goIntT 5) (by decide)⟩

/-- **C2**: (1) no `Convert` call ever returns the `ErrNoConversionAvailable`
sentinel; and a registered or self-describing converter that returns any
other error aborts resolution immediately with exactly that error, after
sentinel-returning converters earlier in the chain fell through: (2) for a
source-keyed converter (later functions and all later strategies are
arbitrary and never consulted), (3) for the `ConverterTo` capability after
an all-sentinel source list, (4) for a target-keyed converter after
all-sentinel source list and `ConverterTo`, (5) for an interface converter. -/
theorem C2_sentinel_fallthrough_and_abort :
    (∀ (prog : GoProgram) (ce : ConverterEngine) (fuel : Nat) (v : GoVal) (t : GoType),
      ce.Convert prog fuel v t ≠ .err .errNoConversionAvailable) ∧
    (∀ (prog : GoProgram) (tcs ics : List (GoType × List ConverterFunc)) (tau t : GoType)
        (v : GoVal) (pre post : List ConverterFunc) (f : ConverterFunc) (e : GoError)
        (fuel : Nat), typeOf? v = some tau → tau ≠ t →
      (∀ g ∈ pre, g v t = .error .errNoConversionAvailable) →
      f v t = .error e → e ≠ .errNoConversionAvailable →
      (ConverterEngine.mk [(tau, pre ++ f :: post)] tcs ics).Convert prog (fuel + 1) v t =
        .err e) ∧
    (∀ (prog : GoProgram) (tcs ics : List (GoType × List ConverterFunc)) (tau t : GoType)
        (v : GoVal) (sc : List ConverterFunc) (f : GoVal → GoType → Except GoError GoVal)
        (e : GoError) (fuel : Nat), typeOf? v = some tau → tau ≠ t →
      (∀ g ∈ sc, g v t = .error .errNoConversionAvailable) →
      prog.converterTo tau = some f →
      f v t = .error e → e ≠ .errNoConversionAvailable →
      (ConverterEngine.mk [(tau, sc)] tcs ics).Convert prog (fuel + 1) v t = .err e) ∧
    (∀ (prog : GoProgram) (ics : List (GoType × List ConverterFunc)) (tau t : GoType)
        (v : GoVal) (sc : List ConverterFunc)
        (ctf : Option (GoVal → GoType → Except GoError GoVal))
        (pre post : List ConverterFunc) (f : ConverterFunc) (e : GoError) (fuel : Nat),
      typeOf? v = some tau → tau ≠ t →
      (∀ g ∈ sc, g v t = .error .errNoConversionAvailable) →
      prog.converterTo tau = ctf →
      (∀ g, ctf = some g → g v t = .error .errNoConversionAvailable) →
      (∀ g ∈ pre, g v t = .error .errNoConversionAvailable) →
      f v t = .error e → e ≠ .errNoConversionAvailable →
      (ConverterEngine.mk [(tau, sc)] [(t, pre ++ f :: post)] ics).Convert prog (fuel + 1) v t =
        .err e) ∧
    (∀ (prog : GoProgram) (tau t itype : GoType) (v : GoVal)
        (pre post : List ConverterFunc) (f : ConverterFunc) (e : GoError) (fuel : Nat),
      typeOf? v = some tau → tau ≠ t →
      prog.converterTo tau = none → prog.implements tau itype = true →
      (∀ g ∈ pre, g v t = .error .errNoConversionAvailable) →
      f v t = .error e → e ≠ .errNoConversionAvailable →
      (ConverterEngine.mk [] [] [(itype, pre ++ f :: post)]).Convert prog (fuel + 1) v t =
        .err e) :=
  ⟨fun prog ce fuel v t => convert_never_sentinel prog ce fuel v t,
   fun prog tcs ics tau t v pre post f e fuel h1 h2 h3 h4 h5 =>
     convert_source_abort prog tcs ics tau t v pre post f e fuel h1 h2 h3 h4 h5,
   fun prog tcs ics tau t v sc f e fuel h1 h2 h3 h4 h5 h6 =>
     convert_converterTo_abort prog tcs ics tau t v sc f e fuel h1 h2 h3 h4 h5 h6,
   fun prog ics tau t v sc ctf pre post f e fuel h1 h2 h3 h4 h5 h6 h7 h8 =>
     convert_target_abort prog ics tau t v sc ctf pre post f e fuel h1 h2 h3 h4 h5 h6 h7 h8,
   fun prog tau t itype v pre post f e fuel h1 h2 h3 h4 h5 h6 h7 =>
     convert_iface_abort prog tau t itype v pre post f e fuel h1 h2 h3 h4 h5 h6 h7⟩

/-- **C2** witness: a source-keyed registration `[sentinel, custom-error]`
for type `S`: the sentinel falls through, the custom error aborts with
exactly that error, regardless of the never-reached later strategies. -/
theorem C2_witness :
    (ConverterEngine.mk [(GoType.structT "S", [sentinelFunc] ++ constErr7 :: [])] [] []).Convert
      prog0 1 (.vstruct (.structT "S") 0) goIntT = .err (.custom 7) :=
  C2_sentinel_fallthrough_and_abort.2.1 prog0 [] [] (.structT "S") goIntT
    (.vstruct (.structT "S") 0) [sentinelFunc] [] constErr7 (.custom 7) 0 rfl (by decide)
    (by intro g hg
        simp only [List.mem_singleton] at hg
        rw [hg]
        rfl)
    rfl (by decide)

/-- The kinds the built-in string blocks of `Convert` format and parse:
bool, the signed and unsigned integers, and the floats. -/
def GoKind.isStrconvKind (k : GoKind) : Bool := decide (k = .kbool) || k.isNumeric

theorem runIfaceFuncs_no_impl (conv : GoVal → GoType → Outcome) (prog : GoProgram)
    (itype tau : GoType) (fs : List ConverterFunc) (v : GoVal) (t : GoType)
    (h : prog.implements tau itype = false) :
    runIfaceFuncs conv prog itype (some tau) fs v t = none := by
  induction fs with
  | nil => rfl
  | cons f rest ih => simp only [runIfaceFuncs, h, if_false]; exact ih

theorem runIface_no_impl (conv : GoVal → GoType → Outcome) (prog : GoProgram)
    (ics : List (GoType × List ConverterFunc)) (tau : GoType) (v : GoVal) (t : GoType)
    (h : ∀ p ∈ ics, prog.implements tau p.1 = false) :
    runIface conv prog ics (some tau) v t = none := by
  induction ics with
  | nil => rfl
  | cons p rest ih =>
    obtain ⟨itype, fs⟩ := p
    have h1 := runIfaceFuncs_no_impl conv prog itype tau fs v t (h (itype, fs) (by simp))
    simp only [runIface, h1]
    exact ih (fun q hq => h q (List.mem_cons_of_mem _ hq))

theorem tryToString_none (prog : GoProgram) (tau : GoType) (v : GoVal) (t : GoType)
    (hstr : t.kind = .kstring → prog.stringer tau = none ∧ tau.kind.isStrconvKind = false) :
    tryToString prog (some tau) v t = none := by
  by_cases hk : t.kind = .kstring
  · obtain ⟨hs, hsk⟩ := hstr hk
    cases htau : tau.kind <;>
      first
      | (rw [htau] at hsk; exact absurd hsk (by decide))
      | simp [tryToString, hk, hs, htau]
  · simp [tryToString, hk]

theorem tryParse_none (prog : GoProgram) (tau : GoType) (v : GoVal) (t : GoType)
    (hparse : tau.kind = .kstring → t.kind.isStrconvKind = false) :
    tryParse prog (some tau) v t = none := by
  by_cases hk : tau.kind = .kstring
  · have hsk := hparse hk
    cases ht : t.kind <;>
      first
      | (rw [ht] at hsk; exact absurd hsk (by decide))
      | simp [tryParse, hk, ht]
  · simp [tryParse, hk]

theorem convert_incompatible (prog : GoProgram) (ce : ConverterEngine) (v : GoVal)
    (tau t : GoType) (fuel : Nat)
    (htau : typeOf? v = some tau) (hne : tau ≠ t)
    (hsrc : lookupReg ce.sourceConverters (some tau) = [])
    (hct : prog.converterTo tau = none)
    (htgt : lookupReg ce.targetConverters (some t) = [])
    (hiface : ∀ p ∈ ce.interfaceConverters, prog.implements tau p.1 = false)
    (hstr : t.kind = .kstring → prog.stringer tau = none ∧ tau.kind.isStrconvKind = false)
    (hparse : tau.kind = .kstring → t.kind.isStrconvKind = false)
    (hslice : ¬(tau.kind = .kslice ∧ t.kind = .kslice))
    (hmap : ¬(tau.kind = .kmap ∧ t.kind = .kmap))
    (hconv : convertibleTo prog tau t = false) :
    ce.Convert prog (fuel + 1) v t = .err .errIncompatibleType := by
  have h1 : runFuncs (ce.Convert prog fuel) (lookupReg ce.sourceConverters (some tau)) v t =
      none := by rw [hsrc]; rfl
  have h2 : tryConverterTo (ce.Convert prog fuel) prog (some tau) v t = none := by
    simp [tryConverterTo, hct]
  have h3 : runFuncs (ce.Convert prog fuel) (lookupReg ce.targetConverters (some t)) v t =
      none := by rw [htgt]; rfl
  have h4 := runIface_no_impl (ce.Convert prog fuel) prog ce.interfaceConverters tau v t hiface
  have h5 := tryToString_none prog tau v t hstr
  have h6 := tryParse_none prog tau v t hparse
  have h7 : trySlice (ce.Convert prog fuel) (some tau) v t = none := by
    simp only [trySlice]
    rw [if_neg hslice]
  have h8 : tryMap (ce.Convert prog fuel) (some tau) v t = none := by
    simp only [tryMap]
    rw [if_neg hmap]
  show convertBody _ prog _ v t = .err .errIncompatibleType
  unfold convertBody
  simp only [htau, h1, h2, h3, h4, h5, h6, h7, h8, hconv]
  rw [if_neg (by simpa using hne)]
  simp

/-- **C4** (amended): for every non-nil source value and target type to
which no strategy applies — no registered source/target converter for the
respective type, no `ConverterTo`, no implemented interface converter, no
built-in string formatting/parsing rule, no slice/slice or map/map rule, and
no reflect kind-level coercion — `Convert` returns `ErrIncompatibleType`.
For a nil source value the code panics instead (see the counterexample). -/
theorem C4_incompatible_types (prog : GoProgram) (ce : ConverterEngine) (v : GoVal)
    (tau t : GoType) (fuel : Nat)
    (htau : typeOf? v = some tau) (hne : tau ≠ t)
    (hsrc : lookupReg ce.sourceConverters (some tau) = [])
    (hct : prog.converterTo tau = none)
    (htgt : lookupReg ce.targetConverters (some t) = [])
    (hiface : ∀ p ∈ ce.interfaceConverters, prog.implements tau p.1 = false)
    (hstr : t.kind = .kstring → prog.stringer tau = none ∧ tau.kind.isStrconvKind = false)
    (hparse : tau.kind = .kstring → t.kind.isStrconvKind = false)
    (hslice : ¬(tau.kind = .kslice ∧ t.kind = .kslice))
    (hmap : ¬(tau.kind = .kmap ∧ t.kind = .kmap))
    (hconv : convertibleTo prog tau t = false) :
    ce.Convert prog (fuel + 1) v t = .err .errIncompatibleType :=
  convert_incompatible prog ce v tau t fuel htau hne hsrc hct htgt hiface hstr hparse
    hslice hmap hconv

/-- **C4** counterexample: a nil source value makes `Convert` panic (the
code calls `Kind()` on the nil `reflect.Type`), rather than returning
`ErrIncompatibleType` — the repository's own tests even expect nil map
entries to convert to zero values. -/
theorem C4_counterexample :
    ConverterEngine.New.Convert prog0 1 .vnil goIntT = .panicked ∧
      Outcome.panicked ≠ Outcome.err .errIncompatibleType :=
  ⟨by decide, by decide⟩

/-- **C4** witness: converting a struct value to `int` on an empty engine
fails with `ErrIncompatibleType` (the `ConversionTest{} -> int` case from
the repository's tests). -/
theorem C4_witness :
    ConverterEngine.New.Convert prog0 1 (.vstruct (.structT "ConversionTest") 0) goIntT =
      .err .errIncompatibleType :=
  C4_incompatible_types prog0 ConverterEngine.New (.vstruct (.structT "ConversionTest") 0)
    (.structT "ConversionTest") goIntT 0 rfl (by decide) rfl rfl rfl
    (by intro p hp; simp [ConverterEngine.New] at hp)
    (by intro h; exact absurd h (by decide))
    (by intro h; exact absurd h (by decide))
    (by decide) (by decide) (by decide)

/-- The alias type `FloatAlias float64` from the repository's tests. -/
def FloatAliasT : GoType := .prim "FloatAlias" .kfloat64

/-- The alias type `IntAlias int` from the repository's tests. -/
def IntAliasT : GoType := .prim "IntAlias" .kint

/-- The exact value of the Go constant `FloatAlias(2.7)` (the binary64
nearest 2.7). -/
def f64of2p7 : ℚ := (6075806371693773 : ℚ) / 2251799813685248

/-- The rounding source converter registered in the repository's tests
(TestConvert, convert_test.go): for an `int`-kinded target, round the
`FloatAlias` to the nearest integer (truncate, then add one when the
fractional part exceeds one half); otherwise signal no conversion. -/
def floatAliasRounder : ConverterFunc := fun source targetType =>
  if targetType.kind = .kint then
    let f := asRat source
    let d : ℚ := f - ((ratTrunc f : Int) : ℚ)
    if d > 1 / 2 then .ok (.vint goIntT (ratTrunc f + 1)) else .ok (.vint goIntT (ratTrunc f))
  else .error .errNoConversionAvailable

/-- The engine of the repository's tests with the rounding source converter
registered for `FloatAlias`. -/
def rounderEngine : ConverterEngine :=
  ConverterEngine.New.AddSourceConverter FloatAliasT floatAliasRounder

/-- **C3**: with the rounding source converter registered for `FloatAlias`,
`Convert(FloatAlias(2.7), int)` yields `3` — the converter takes precedence
over the default truncating coercion, which on an empty engine yields `2`
(third conjunct).  For the target `IntAlias` the converter returns a plain
`int` value, which is not yet the target type, and the engine finishes the
conversion by re-dispatch (second conjunct). -/
theorem C3_custom_converter_precedence :
    rounderEngine.Convert prog0 3 (.vfloat FloatAliasT f64of2p7) goIntT =
        .ok (.vint goIntT 3) ∧
      rounderEngine.Convert prog0 3 (.vfloat FloatAliasT f64of2p7) IntAliasT =
        .ok (.vint IntAliasT 3) ∧
      ConverterEngine.New.Convert prog0 1 (.vfloat FloatAliasT f64of2p7) goIntT =
        .ok (.vint goIntT 2) :=
  ⟨by decide, by decide, by decide⟩

theorem convert_kind_coercion (prog : GoProgram) (ce : ConverterEngine) (v : GoVal)
    (tau t : GoType) (fuel : Nat)
    (htau : typeOf? v = some tau) (hne : tau ≠ t)
    (hsrc : lookupReg ce.sourceConverters (some tau) = [])
    (hct : prog.converterTo tau = none)
    (htgt : lookupReg ce.targetConverters (some t) = [])
    (hiface : ∀ p ∈ ce.interfaceConverters, prog.implements tau p.1 = false)
    (hstr : t.kind = .kstring → prog.stringer tau = none ∧ tau.kind.isStrconvKind = false)
    (hparse : tau.kind = .kstring → t.kind.isStrconvKind = false)
    (hslice : ¬(tau.kind = .kslice ∧ t.kind = .kslice))
    (hmap : ¬(tau.kind = .kmap ∧ t.kind = .kmap))
    (hconv : convertibleTo prog tau t = true) :
    ce.Convert prog (fuel + 1) v t = .ok (reflectConvert v t) := by
  have h1 : runFuncs (ce.Convert prog fuel) (lookupReg ce.sourceConverters (some tau)) v t =
      none := by rw [hsrc]; rfl
  have h2 : tryConverterTo (ce.Convert prog fuel) prog (some tau) v t = none := by
    simp [tryConverterTo, hct]
  have h3 : runFuncs (ce.Convert prog fuel) (lookupReg ce.targetConverters (some t)) v t =
      none := by rw [htgt]; rfl
  have h4 := runIface_no_impl (ce.Convert prog fuel) prog ce.interfaceConverters tau v t hiface
  have h5 := tryToString_none prog tau v t hstr
  have h6 := tryParse_none prog tau v t hparse
  have h7 : trySlice (ce.Convert prog fuel) (some tau) v t = none := by
    simp only [trySlice]
    rw [if_neg hslice]
  have h8 : tryMap (ce.Convert prog fuel) (some tau) v t = none := by
    simp only [tryMap]
    rw [if_neg hmap]
  show convertBody _ prog _ v t = .ok (reflectConvert v t)
  unfold convertBody
  simp only [htau, h1, h2, h3, h4, h5, h6, h7, h8, hconv]
  rw [if_neg (by simpa using hne)]
  simp

/-- **C10**: converting a negative value of any signed-integer type to any
unsigned-integer type (with no custom converter) succeeds, and the result is
the source value reduced modulo `2 ^ w` for the target's width `w` — the
two's-complement reinterpretation. -/
theorem C10_negative_to_unsigned_wraps (sname tname : String) (skind tkind : GoKind)
    (n : Int) (fuel : Nat)
    (hs : skind.isSigned = true) (ht : tkind.isUnsigned = true)
    (hneg : n < 0) (hrange : -(2 ^ (skind.width - 1) : Int) ≤ n) :
    ∃ m : Nat,
      ConverterEngine.New.Convert prog0 (fuel + 1)
          (.vint (.prim sname skind) n) (.prim tname tkind) =
        .ok (.vuint (.prim tname tkind) m) ∧
      (m : Int) = n % (2 ^ tkind.width : Int) ∧ m < 2 ^ tkind.width := by
  have hkne : skind ≠ tkind := by
    intro heq
    rw [heq] at hs
    cases tkind <;> simp [GoKind.isSigned] at hs <;> simp [GoKind.isUnsigned] at ht
  have hcoerce : ConverterEngine.New.Convert prog0 (fuel + 1)
      (.vint (.prim sname skind) n) (.prim tname tkind) =
      .ok (reflectConvert (.vint (.prim sname skind) n) (.prim tname tkind)) := by
    apply convert_kind_coercion prog0 ConverterEngine.New (.vint (.prim sname skind) n)
      (.prim sname skind) (.prim tname tkind) fuel rfl
    · intro heq
      exact hkne (by injection heq)
    · rfl
    · rfl
    · rfl
    · intro p hp
      simp [ConverterEngine.New] at hp
    · intro hstr
      simp only [GoType.kind] at hstr
      rw [hstr] at ht
      exact absurd ht (by decide)
    · intro hstr
      simp only [GoType.kind] at hstr
      rw [hstr] at hs
      exact absurd hs (by decide)
    · intro hcon
      obtain ⟨h1, _⟩ := hcon
      simp only [GoType.kind] at h1
      rw [h1] at hs
      exact absurd hs (by decide)
    · intro hcon
      obtain ⟨h1, _⟩ := hcon
      simp only [GoType.kind] at h1
      rw [h1] at hs
      exact absurd hs (by decide)
    · simp [convertibleTo, GoKind.isNumeric, GoKind.isInteger, GoType.kind, hs, ht]
  have hrc : reflectConvert (.vint (.prim sname skind) n) (.prim tname tkind) =
      .vuint (.prim tname tkind) (wrapUnsigned n tkind.width) := by
    cases tkind <;> first
      | exact absurd ht (by decide)
      | simp [reflectConvert, GoType.kind, truncAsInt]
  refine ⟨wrapUnsigned n tkind.width, by rw [hcoerce, hrc], ?_, ?_⟩
  · have hpos : (0 : Int) < 2 ^ tkind.width := by positivity
    exact Int.toNat_of_nonneg (Int.emod_nonneg n (by positivity))
  · have hlt : n % (2 ^ tkind.width : Int) < 2 ^ tkind.width :=
      Int.emod_lt_of_pos n (by positivity)
    have hnn : 0 ≤ n % (2 ^ tkind.width : Int) := Int.emod_nonneg n (by positivity)
    have hcast : ((2 ^ tkind.width : Nat) : Int) = (2 ^ tkind.width : Int) := by
      push_cast
      ring
    unfold wrapUnsigned
    omega

/-- **C10** witness: `Convert(int(-1), uint)` succeeds and returns
`uint(2 ^ 64 - 1)`. -/
theorem C10_witness :
    ∃ m : Nat,
      ConverterEngine.New.Convert prog0 1 (.vint goIntT (-1)) (.prim "uint" .kuint) =
        .ok (.vuint (.prim "uint" .kuint) m) ∧
      (m : Int) = (-1 : Int) % (2 ^ GoKind.kuint.width : Int) ∧ m < 2 ^ GoKind.kuint.width :=
  C10_negative_to_unsigned_wraps "int" "uint" .kint .kuint (-1) 0 (by decide) (by decide)
    (by decide) (by decide)

/-- **C8**: `Set` on a non-pointer target fails with `ErrExpectedPointer`
and writes nothing; on a pointer target it resolves `Convert(source,
typeOf(*target))`, propagates a conversion error with the pointee
unmodified, and on success writes exactly the converted value through the
pointer. -/
theorem C8_set_semantics :
    (∀ (prog : GoProgram) (ce : ConverterEngine) (fuel : Nat) (target source : GoVal),
      (∀ (et : GoType) (c : GoVal), target ≠ .vptr et c) →
      ce.Set prog fuel target source = .err .errExpectedPointer) ∧
    (∀ (prog : GoProgram) (ce : ConverterEngine) (fuel : Nat) (et : GoType) (c source : GoVal)
        (e : GoError), ce.Convert prog fuel source et = .err e →
      ce.Set prog fuel (.vptr et c) source = .err e) ∧
    (∀ (prog : GoProgram) (ce : ConverterEngine) (fuel : Nat) (et : GoType) (c source w : GoVal),
      ce.Convert prog fuel source et = .ok w →
      ce.Set prog fuel (.vptr et c) source = .ok (.vptr et w)) := by
  refine ⟨?_, ?_, ?_⟩
  · intro prog ce fuel target source h
    cases target with
    | vptr et c => exact absurd rfl (h et c)
    | vnil => rfl
    | vbool t b => rfl
    | vint t n => rfl
    | vuint t n => rfl
    | vfloat t q => rfl
    | vstring t s => rfl
    | vslice t es => rfl
    | vmap t ps => rfl
    | vstruct t p => rfl
  · intro prog ce fuel et c source e h
    simp [ConverterEngine.Set, h]
  · intro prog ce fuel et c source w h
    simp [ConverterEngine.Set, h]

/-- **C8** witness: `Set(int(3), true)` fails with `ErrExpectedPointer`. -/
theorem C8_witness :
    ConverterEngine.New.Set prog0 1 (.vint goIntT 3) (.vbool goBoolT true) =
      .err .errExpectedPointer :=
  C8_set_semantics.1 prog0 ConverterEngine.New 1 (.vint goIntT 3) (.vbool goBoolT true)
    (fun et c h => by cases h)

mutual

/-- No (nested) component of this value has a dynamic type implementing
`ConverterTo` (including the value itself). -/
def noCT (prog : GoProgram) : GoVal → Bool
  | .vnil => true
  | .vbool t _ => (prog.converterTo t).isNone
  | .vint t _ => (prog.converterTo t).isNone
  | .vuint t _ => (prog.converterTo t).isNone
  | .vfloat t _ => (prog.converterTo t).isNone
  | .vstring t _ => (prog.converterTo t).isNone
  | .vslice t es => (prog.converterTo t).isNone && noCTList prog es
  | .vmap t ps => (prog.converterTo t).isNone && noCTPairs prog ps
  | .vstruct t _ => (prog.converterTo t).isNone
  | .vptr e p => (prog.converterTo (.ptrT e)).isNone && noCT prog p

/-- `noCT` over a list of elements. -/
def noCTList (prog : GoProgram) : List GoVal → Bool
  | [] => true
  | x :: xs => noCT prog x && noCTList prog xs

/-- `noCT` over a list of entries. -/
def noCTPairs (prog : GoProgram) : List (GoVal × GoVal) → Bool
  | [] => true
  | (k, x) :: xs => noCT prog k && noCT prog x && noCTPairs prog xs

end

theorem noCT_converterTo (prog : GoProgram) (v : GoVal) (tau : GoType)
    (hn : noCT prog v = true) (ht : typeOf? v = some tau) : prog.converterTo tau = none := by
  cases v <;> simp only [typeOf?, Option.some.injEq] at ht <;>
    simp only [noCT, Bool.and_eq_true, Option.isNone_iff_eq_none] at hn <;>
    first
    | exact ht ▸ hn
    | exact ht ▸ hn.1
    | exact absurd ht (by simp)

theorem noCTList_mem (prog : GoProgram) (es : List GoVal) (x : GoVal)
    (hn : noCTList prog es = true) (hx : x ∈ es) : noCT prog x = true := by
  induction es with
  | nil => cases hx
  | cons a as0 ih =>
    simp only [noCTList, Bool.and_eq_true] at hn
    cases hx with
    | head => exact hn.1
    | tail _ hmem => exact ih hn.2 hmem

theorem noCTPairs_mem (prog : GoProgram) (ps : List (GoVal × GoVal)) (p : GoVal × GoVal)
    (hn : noCTPairs prog ps = true) (hp : p ∈ ps) :
    noCT prog p.1 = true ∧ noCT prog p.2 = true := by
  induction ps with
  | nil => cases hp
  | cons a as0 ih =>
    obtain ⟨k, x⟩ := a
    simp only [noCTPairs, Bool.and_eq_true] at hn
    cases hp with
    | head => exact ⟨hn.1.1, hn.1.2⟩
    | tail _ hmem => exact ih hn.2 hmem

theorem noCT_elem (prog : GoProgram) (v x : GoVal) (hn : noCT prog v = true)
    (hx : x ∈ asElems v) : noCT prog x = true := by
  cases v <;> simp only [asElems] at hx
  case vslice t es =>
    simp only [noCT, Bool.and_eq_true] at hn
    exact noCTList_mem prog es x hn.2 hx
  all_goals exact absurd hx (List.not_mem_nil _)

theorem noCT_entry (prog : GoProgram) (v : GoVal) (p : GoVal × GoVal)
    (hn : noCT prog v = true) (hp : p ∈ asEntries v) :
    noCT prog p.1 = true ∧ noCT prog p.2 = true := by
  cases v <;> simp only [asEntries] at hp
  case vmap t ps =>
    simp only [noCT, Bool.and_eq_true] at hn
    exact noCTPairs_mem prog ps p hn.2 hp
  all_goals exact absurd hp (List.not_mem_nil _)

theorem sizeOf_elem_lt (v x : GoVal) (hx : x ∈ asElems v) : sizeOf x < sizeOf v := by
  cases v <;> simp only [asElems] at hx
  case vslice t es =>
    have := List.sizeOf_lt_of_mem hx
    simp only [GoVal.vslice.sizeOf_spec]
    omega
  all_goals exact absurd hx (List.not_mem_nil _)

theorem sizeOf_entry_lt (v : GoVal) (p : GoVal × GoVal) (hp : p ∈ asEntries v) :
    sizeOf p.1 < sizeOf v ∧ sizeOf p.2 < sizeOf v := by
  cases v <;> simp only [asEntries] at hp
  case vmap t ps =>
    have hps := List.sizeOf_lt_of_mem hp
    obtain ⟨k, x⟩ := p
    simp only [Prod.mk.sizeOf_spec] at hps
    simp only [GoVal.vmap.sizeOf_spec]
    constructor <;> omega
  all_goals exact absurd hp (List.not_mem_nil _)

theorem goVal_sizeOf_pos (v : GoVal) : 0 < sizeOf v := by
  cases v <;> simp_arith

theorem convert_no_fuel_exhaustion (prog : GoProgram) (ce : ConverterEngine)
    (h1 : ce.sourceConverters = []) (h2 : ce.targetConverters = [])
    (h3 : ce.interfaceConverters = []) :
    ∀ (fuel : Nat) (v : GoVal) (t : GoType), noCT prog v = true → sizeOf v ≤ fuel →
      ce.Convert prog fuel v t ≠ .outOfFuel := by
  intro fuel
  induction fuel with
  | zero =>
    intro v t hn hs
    have := goVal_sizeOf_pos v
    omega
  | succ fuel ih =>
    intro v t hn hs hcontra
    have hb : convertBody (ce.Convert prog fuel) prog ce v t = .outOfFuel := hcontra
    have hs1 : runFuncs (ce.Convert prog fuel) (lookupReg ce.sourceConverters (typeOf? v)) v t =
        none := by
      rw [h1]; cases typeOf? v <;> rfl
    have hs2 : tryConverterTo (ce.Convert prog fuel) prog (typeOf? v) v t = none := by
      cases htv : typeOf? v with
      | none => rfl
      | some tau => simp [tryConverterTo, noCT_converterTo prog v tau hn htv]
    have hs3 : runFuncs (ce.Convert prog fuel) (lookupReg ce.targetConverters (some t)) v t =
        none := by rw [h2]; rfl
    have hs4 : runIface (ce.Convert prog fuel) prog ce.interfaceConverters (typeOf? v) v t =
        none := by rw [h3]; cases typeOf? v <;> rfl
    unfold convertBody at hb
    by_cases hid : typeOf? v = some t
    · rw [if_pos hid] at hb; exact absurd hb (by simp)
    · rw [if_neg hid] at hb
      simp only [hs1, hs2, hs3, hs4] at hb
      cases h5 : tryToString prog (typeOf? v) v t with
      | some o =>
        simp only [h5] at hb
        rcases tryToString_some prog _ v t o h5 with ⟨w, ho, _⟩ | hp
        · rw [ho] at hb; exact absurd hb (by simp)
        · rw [hp] at hb; exact absurd hb (by simp)
      | none =>
      simp only [h5] at hb
      cases h6 : tryParse prog (typeOf? v) v t with
      | some o =>
        simp only [h6] at hb
        rcases tryParse_some prog _ v t o h6 with ⟨w, ho, _⟩ | ⟨e, ho, _⟩ | hp
        · rw [ho] at hb; exact absurd hb (by simp)
        · rw [ho] at hb; exact absurd hb (by simp)
        · rw [hp] at hb; exact absurd hb (by simp)
      | none =>
      simp only [h6] at hb
      cases h7 : trySlice (ce.Convert prog fuel) (typeOf? v) v t with
      | some o =>
        simp only [h7] at hb
        have ho : o = convertSliceF (ce.Convert prog fuel) v t := by
          cases htv : typeOf? v with
          | none => rw [htv] at h7; simp [trySlice] at h7
          | some tau =>
            rw [htv] at h7
            simp only [trySlice] at h7
            by_cases hc : tau.kind = .kslice ∧ t.kind = .kslice
            · rw [if_pos hc] at h7; exact (Option.some.inj h7).symm
            · rw [if_neg hc] at h7; exact absurd h7 (by simp)
        rw [ho] at hb
        obtain ⟨x, hx, hcx⟩ :=
          convertSliceGo_fuel_source (ce.Convert prog fuel) (asElems v) t.elemType t [] hb
        have hlt := sizeOf_elem_lt v x hx
        exact ih x t.elemType (noCT_elem prog v x hn hx) (by omega) hcx
      | none =>
      simp only [h7] at hb
      cases h8 : tryMap (ce.Convert prog fuel) (typeOf? v) v t with
      | some o =>
        simp only [h8] at hb
        have ho : o = convertMapF (ce.Convert prog fuel) v t := by
          cases htv : typeOf? v with
          | none => rw [htv] at h8; simp [tryMap] at h8
          | some tau =>
            rw [htv] at h8
            simp only [tryMap] at h8
            by_cases hc : tau.kind = .kmap ∧ t.kind = .kmap
            · rw [if_pos hc] at h8; exact (Option.some.inj h8).symm
            · rw [if_neg hc] at h8; exact absurd h8 (by simp)
        rw [ho] at hb
        obtain ⟨p, hp, hcp⟩ :=
          convertMapGo_fuel_source (ce.Convert prog fuel) (asEntries v) t.elemType t.keyType t
            [] hb
        have hlt := sizeOf_entry_lt v p hp
        have hct := noCT_entry prog v p hn hp
        cases hcp with
        | inl hcp => exact ih p.2 t.elemType hct.2 (by omega) hcp
        | inr hcp => exact ih p.1 t.keyType hct.1 (by omega) hcp
      | none =>
      simp only [h8] at hb
      cases htv : typeOf? v with
      | none => rw [htv] at hb; exact absurd hb (by simp)
      | some tau =>
        rw [htv] at hb
        by_cases hc : convertibleTo prog tau t
        · simp only [hc] at hb
          exact absurd hb (by simp)
        · simp only [Bool.not_eq_true] at hc
          simp only [hc] at hb
          exact absurd hb (by simp)

/-- **C9**: on an engine whose three converter registries are empty and a
source value none of whose nested components implements `ConverterTo`,
`Convert` terminates: fuel equal to the size of the source value (which
bounds the container nesting) is never exhausted, because the only
recursion is into container elements and entries. -/
theorem C9_termination (prog : GoProgram) (ce : ConverterEngine)
    (h1 : ce.sourceConverters = []) (h2 : ce.targetConverters = [])
    (h3 : ce.interfaceConverters = []) (fuel : Nat) (v : GoVal) (t : GoType)
    (hn : noCT prog v = true) (hs : sizeOf v ≤ fuel) :
    ce.Convert prog fuel v t ≠ .outOfFuel :=
  convert_no_fuel_exhaustion prog ce h1 h2 h3 fuel v t hn hs

/-- **C9** witness: converting a nested slice value on an empty engine with
fuel bounded by the value's size does not exhaust the fuel. -/
theorem C9_witness :
    noCT prog0 (GoVal.vslice (.sliceT anyT) [.vint goIntT 1]) = true ∧
      ConverterEngine.New.Convert prog0 (sizeOf (GoVal.vslice (.sliceT anyT) [.vint goIntT 1]))
        (.vslice (.sliceT anyT) [.vint goIntT 1]) (.sliceT goIntT) ≠ .outOfFuel :=
  ⟨rfl,
    C9_termination prog0 ConverterEngine.New rfl rfl rfl _
      (.vslice (.sliceT anyT) [.vint goIntT 1]) (.sliceT goIntT) rfl (le_refl _)⟩

theorem convertSliceGo_ok_pointwise (conv : GoVal → GoType → Outcome) (es : List GoVal)
    (telem t : GoType) (acc ws : List GoVal) (hlen : es.length = ws.length)
    (hpt : ∀ i (hi : i < es.length) (hw : i < ws.length),
      conv (es.get ⟨i, hi⟩) telem = .ok (ws.get ⟨i, hw⟩)) :
    convertSliceGo conv es telem t acc = .ok (.vslice t (acc.reverse ++ ws)) := by
  induction es generalizing acc ws with
  | nil =>
    cases ws with
    | nil => simp [convertSliceGo]
    | cons w ws2 => exact absurd hlen (by simp)
  | cons x xs ih =>
    cases ws with
    | nil => exact absurd hlen (by simp)
    | cons w ws2 =>
      have h0 := hpt 0 (by simp) (by simp)
      simp only [List.get] at h0
      simp only [convertSliceGo, h0]
      have hrec := ih (w :: acc) ws2 (by simpa using hlen)
        (fun i hi hw => hpt (i + 1) (by simpa using Nat.succ_lt_succ hi)
          (by simpa using Nat.succ_lt_succ hw))
      rw [hrec]
      simp

theorem convertSliceGo_err_at (conv : GoVal → GoType → Outcome) (es : List GoVal)
    (telem t : GoType) (acc : List GoVal) (i : Nat) (hi : i < es.length) (e : GoError)
    (herr : conv (es.get ⟨i, hi⟩) telem = .err e)
    (hok : ∀ j (hj : j < es.length), j < i → ∃ w, conv (es.get ⟨j, hj⟩) telem = .ok w) :
    convertSliceGo conv es telem t acc = .err e := by
  induction es generalizing acc i with
  | nil => exact absurd hi (by simp)
  | cons x xs ih =>
    cases i with
    | zero =>
      simp only [List.get] at herr
      simp [convertSliceGo, herr]
    | succ i2 =>
      obtain ⟨w, hw⟩ := hok 0 (by simp) (by omega)
      simp only [List.get] at hw
      simp only [convertSliceGo, hw]
      exact ih (w :: acc) i2 (by simpa using hi) herr
        (fun j hj hji => hok (j + 1) (by simpa using Nat.succ_lt_succ hj) (by omega))

/-- **C5**: converting a slice builds a new slice of the target slice type:
when every element converts, the result has the same length and its `i`-th
element is the recursive conversion of the source's `i`-th element (order
and count preserved exactly); when some element fails (all earlier elements
converting), the whole conversion fails with that element's error. -/
theorem C5_slice_conversion :
    (∀ (prog : GoProgram) (ce : ConverterEngine) (fuel : Nat) (st : GoType)
        (es : List GoVal) (t : GoType) (ws : List GoVal),
      es.length = ws.length →
      (∀ i (hi : i < es.length) (hw : i < ws.length),
        ce.Convert prog fuel (es.get ⟨i, hi⟩) t.elemType = .ok (ws.get ⟨i, hw⟩)) →
      ce.convertSlice prog fuel (.vslice st es) t = .ok (.vslice t ws)) ∧
    (∀ (prog : GoProgram) (ce : ConverterEngine) (fuel : Nat) (st : GoType)
        (es : List GoVal) (t : GoType) (i : Nat) (hi : i < es.length) (e : GoError),
      ce.Convert prog fuel (es.get ⟨i, hi⟩) t.elemType = .err e →
      (∀ j (hj : j < es.length), j < i →
        ∃ w, ce.Convert prog fuel (es.get ⟨j, hj⟩) t.elemType = .ok w) →
      ce.convertSlice prog fuel (.vslice st es) t = .err e) := by
  constructor
  · intro prog ce fuel st es t ws hlen hpt
    have := convertSliceGo_ok_pointwise (ce.Convert prog fuel) es t.elemType t [] ws hlen hpt
    simpa [ConverterEngine.convertSlice, convertSliceF, asElems] using this
  · intro prog ce fuel st es t i hi e herr hok
    have := convertSliceGo_err_at (ce.Convert prog fuel) es t.elemType t [] i hi e herr hok
    simpa [ConverterEngine.convertSlice, convertSliceF, asElems] using this

/-- A Go string value (predeclared `string` type) from ASCII text. -/
def goStr (s : String) : GoVal := .vstring goStringT (asciiStr s)

/-- **C5** witness: the spec's example — converting the slice
`["1", "2", "3"]` to `[]int` yields `[1, 2, 3]` in order. -/
theorem C5_witness :
    ConverterEngine.New.convertSlice prog0 1
      (.vslice (.sliceT anyT) [goStr "1", goStr "2", goStr "3"]) (.sliceT goIntT) =
      .ok (.vslice (.sliceT goIntT) [.vint goIntT 1, .vint goIntT 2, .vint goIntT 3]) :=
  C5_slice_conversion.1 prog0 ConverterEngine.New 1 (.sliceT anyT)
    [goStr "1", goStr "2", goStr "3"] (.sliceT goIntT)
    [.vint goIntT 1, .vint goIntT 2, .vint goIntT 3] rfl
    (by
      intro i hi hw
      rcases i with _ | _ | _ | i4
      · simp only [List.get]
        decide
      · simp only [List.get]
        decide
      · simp only [List.get]
        decide
      · simp only [List.length_cons, List.length_nil] at hi
        omega)

theorem find?_map_replace (m : List (GoVal × GoVal)) (a b k : GoVal) :
    (m.map (fun p => if p.1 = a then (p.1, b) else p)).find? (fun p => decide (p.1 = k)) =
      match m.find? (fun p => decide (p.1 = k)) with
      | none => none
      | some q => some (if q.1 = a then (q.1, b) else q) := by
  induction m with
  | nil => rfl
  | cons p rest ih =>
    obtain ⟨pk, pv⟩ := p
    have hkey : ((if (pk, pv).1 = a then ((pk, pv).1, b) else (pk, pv)) : GoVal × GoVal).1 = pk := by
      split <;> rfl
    by_cases hk : pk = k
    · simp only [List.map_cons, List.find?_cons, hkey]
      rw [show (decide (pk = k)) = true by simp [hk]]
    · simp only [List.map_cons, List.find?_cons, hkey]
      rw [show (decide (pk = k)) = false by simp [hk]]
      exact ih

theorem mapLookup_mapInsert (m : List (GoVal × GoVal)) (a b k : GoVal) :
    mapLookup (mapInsert m a b) k = if a = k then some b else mapLookup m k := by
  unfold mapInsert
  by_cases hany : m.any (fun p => decide (p.1 = a))
  · rw [if_pos hany]
    unfold mapLookup
    rw [find?_map_replace]
    by_cases hak : a = k
    · subst hak
      have hsome : (m.find? (fun p => decide (p.1 = a))).isSome := by
        rw [List.find?_isSome]
        simpa [List.any_eq_true] using hany
      cases hq : m.find? (fun p => decide (p.1 = a)) with
      | none => rw [hq] at hsome; simp at hsome
      | some q =>
        have hqa : q.1 = a := by simpa using List.find?_some hq
        simp [hq, hqa]
    · cases hq : m.find? (fun p => decide (p.1 = k)) with
      | none => simp [hq, hak]
      | some q =>
        have hqk : q.1 = k := by simpa using List.find?_some hq
        have hqa : ¬(q.1 = a) := by rw [hqk]; exact fun h => hak h.symm
        simp [hq, hak, hqa]
  · rw [if_neg hany]
    unfold mapLookup
    rw [List.find?_append]
    by_cases hak : a = k
    · subst hak
      have hnone : m.find? (fun p => decide (p.1 = a)) = none := by
        rw [List.find?_eq_none]
        intro p hp
        simp only [decide_eq_true_eq]
        intro hpa
        exact hany (List.any_eq_true.2 ⟨p, hp, by simp [hpa]⟩)
      simp [hnone]
    · cases hq : m.find? (fun p => decide (p.1 = k)) with
      | none => simp [hq, fun h => hak (of_decide_eq_true h)]
      | some q => simp [hq, hak]

/-- Insert all converted entries in order (the `SetMapIndex` loop). -/
def insertAll (acc : List (GoVal × GoVal)) (ps : List (GoVal × GoVal)) :
    List (GoVal × GoVal) :=
  ps.foldl (fun m p => mapInsert m p.1 p.2) acc

/-- The value of the LAST entry of `ps` whose key equals `k`. -/
def lastAssoc (ps : List (GoVal × GoVal)) (k : GoVal) : Option GoVal :=
  (ps.reverse.find? (fun p => decide (p.1 = k))).map Prod.snd

theorem lastAssoc_cons (a : GoVal × GoVal) (ps : List (GoVal × GoVal)) (k : GoVal) :
    lastAssoc (a :: ps) k =
      match lastAssoc ps k with
      | some w => some w
      | none => if a.1 = k then some a.2 else none := by
  unfold lastAssoc
  rw [List.reverse_cons, List.find?_append]
  cases hq : ps.reverse.find? (fun p => decide (p.1 = k)) with
  | some q => simp [hq]
  | none =>
    by_cases hak : a.1 = k
    · simp [hq, hak]
    · simp [hq, hak]

theorem mapLookup_insertAll (ps : List (GoVal × GoVal)) (acc : List (GoVal × GoVal))
    (k : GoVal) :
    mapLookup (insertAll acc ps) k =
      match lastAssoc ps k with
      | some w => some w
      | none => mapLookup acc k := by
  induction ps generalizing acc with
  | nil => rfl
  | cons a rest ih =>
    have hstep : insertAll acc (a :: rest) = insertAll (mapInsert acc a.1 a.2) rest := rfl
    rw [hstep, ih, lastAssoc_cons]
    cases hl : lastAssoc rest k with
    | some w => rfl
    | none =>
      rw [mapLookup_mapInsert]
      by_cases hak : a.1 = k
      · simp [hak]
      · simp [hak]

theorem convertMapGo_ok_pointwise (conv : GoVal → GoType → Outcome)
    (ps : List (GoVal × GoVal)) (telem tkey t : GoType) (acc : List (GoVal × GoVal))
    (kws ws : List GoVal) (hl1 : ps.length = ws.length) (hl2 : ps.length = kws.length)
    (hptv : ∀ i (hi : i < ps.length) (hw : i < ws.length),
      conv (ps.get ⟨i, hi⟩).2 telem = .ok (ws.get ⟨i, hw⟩))
    (hptk : ∀ i (hi : i < ps.length) (hw : i < kws.length),
      conv (ps.get ⟨i, hi⟩).1 tkey = .ok (kws.get ⟨i, hw⟩)) :
    convertMapGo conv ps telem tkey t acc = .ok (.vmap t (insertAll acc (kws.zip ws))) := by
  induction ps generalizing acc kws ws with
  | nil =>
    cases ws with
    | cons w ws2 => exact absurd hl1 (by simp)
    | nil =>
      cases kws with
      | cons kw kws2 => exact absurd hl2 (by simp)
      | nil => simp [convertMapGo, insertAll]
  | cons p rest ih =>
    obtain ⟨k, x⟩ := p
    cases ws with
    | nil => exact absurd hl1 (by simp)
    | cons w ws2 =>
      cases kws with
      | nil => exact absurd hl2 (by simp)
      | cons kw kws2 =>
        have h0v := hptv 0 (by simp) (by simp)
        have h0k := hptk 0 (by simp) (by simp)
        simp only [List.get] at h0v h0k
        simp only [convertMapGo, h0v, h0k]
        have hrec := ih (mapInsert acc kw w) kws2 ws2 (by simpa using hl1) (by simpa using hl2)
          (fun i hi hw => by
            have := hptv (i + 1) (by simpa using Nat.succ_lt_succ hi)
              (by simpa using Nat.succ_lt_succ hw)
            simpa [List.get] using this)
          (fun i hi hw => by
            have := hptk (i + 1) (by simpa using Nat.succ_lt_succ hi)
              (by simpa using Nat.succ_lt_succ hw)
            simpa [List.get] using this)
        rw [hrec]
        rfl

theorem convertMapGo_err_val_at (conv : GoVal → GoType → Outcome)
    (ps : List (GoVal × GoVal)) (telem tkey t : GoType) (acc : List (GoVal × GoVal))
    (i : Nat) (hi : i < ps.length) (e : GoError)
    (herr : conv (ps.get ⟨i, hi⟩).2 telem = .err e)
    (hok : ∀ j (hj : j < ps.length), j < i →
      (∃ w, conv (ps.get ⟨j, hj⟩).2 telem = .ok w) ∧
      (∃ kw, conv (ps.get ⟨j, hj⟩).1 tkey = .ok kw)) :
    convertMapGo conv ps telem tkey t acc = .err e := by
  induction ps generalizing acc i with
  | nil => exact absurd hi (by simp)
  | cons p rest ih =>
    obtain ⟨k, x⟩ := p
    cases i with
    | zero =>
      simp only [List.get] at herr
      simp [convertMapGo, herr]
    | succ i2 =>
      obtain ⟨⟨w, hw⟩, ⟨kw, hkw⟩⟩ := hok 0 (by simp) (by omega)
      simp only [List.get] at hw hkw
      simp only [convertMapGo, hw, hkw]
      exact ih (mapInsert acc kw w) i2 (by simpa using hi) herr
        (fun j hj hji => by
          have := hok (j + 1) (by simpa using Nat.succ_lt_succ hj) (by omega)
          simpa [List.get] using this)

theorem convertMapGo_err_key_at (conv : GoVal → GoType → Outcome)
    (ps : List (GoVal × GoVal)) (telem tkey t : GoType) (acc : List (GoVal × GoVal))
    (i : Nat) (hi : i < ps.length) (e : GoError) (w0 : GoVal)
    (hval : conv (ps.get ⟨i, hi⟩).2 telem = .ok w0)
    (herr : conv (ps.get ⟨i, hi⟩).1 tkey = .err e)
    (hok : ∀ j (hj : j < ps.length), j < i →
      (∃ w, conv (ps.get ⟨j, hj⟩).2 telem = .ok w) ∧
      (∃ kw, conv (ps.get ⟨j, hj⟩).1 tkey = .ok kw)) :
    convertMapGo conv ps telem tkey t acc = .err e := by
  induction ps generalizing acc i with
  | nil => exact absurd hi (by simp)
  | cons p rest ih =>
    obtain ⟨k, x⟩ := p
    cases i with
    | zero =>
      simp only [List.get] at herr hval
      simp [convertMapGo, hval, herr]
    | succ i2 =>
      obtain ⟨⟨w, hw⟩, ⟨kw, hkw⟩⟩ := hok 0 (by simp) (by omega)
      simp only [List.get] at hw hkw
      simp only [convertMapGo, hw, hkw]
      exact ih (mapInsert acc kw w) i2 (by simpa using hi) hval herr
        (fun j hj hji => by
          have := hok (j + 1) (by simpa using Nat.succ_lt_succ hj) (by omega)
          simpa [List.get] using this)

/-- **C6**: converting a map builds a new map of the target map type by
converting, for each source entry, its value to the target's value type and
its key to the target's key type, and inserting in iteration order with Go
key equality — so if two source keys convert to the same target key, the
last written value wins (fourth conjunct: lookup in the built map returns
the value of the last entry with that key).  A failing value conversion
(second conjunct) or key conversion (third) aborts with that error; within
an entry the value is converted before the key. -/
theorem C6_map_conversion :
    (∀ (prog : GoProgram) (ce : ConverterEngine) (fuel : Nat) (st : GoType)
        (ps : List (GoVal × GoVal)) (t : GoType) (kws ws : List GoVal),
      ps.length = ws.length → ps.length = kws.length →
      (∀ i (hi : i < ps.length) (hw : i < ws.length),
        ce.Convert prog fuel (ps.get ⟨i, hi⟩).2 t.elemType = .ok (ws.get ⟨i, hw⟩)) →
      (∀ i (hi : i < ps.length) (hw : i < kws.length),
        ce.Convert prog fuel (ps.get ⟨i, hi⟩).1 t.keyType = .ok (kws.get ⟨i, hw⟩)) →
      ce.convertMap prog fuel (.vmap st ps) t = .ok (.vmap t (insertAll [] (kws.zip ws)))) ∧
    (∀ (prog : GoProgram) (ce : ConverterEngine) (fuel : Nat) (st : GoType)
        (ps : List (GoVal × GoVal)) (t : GoType) (i : Nat) (hi : i < ps.length) (e : GoError),
      ce.Convert prog fuel (ps.get ⟨i, hi⟩).2 t.elemType = .err e →
      (∀ j (hj : j < ps.length), j < i →
        (∃ w, ce.Convert prog fuel (ps.get ⟨j, hj⟩).2 t.elemType = .ok w) ∧
        (∃ kw, ce.Convert prog fuel (ps.get ⟨j, hj⟩).1 t.keyType = .ok kw)) →
      ce.convertMap prog fuel (.vmap st ps) t = .err e) ∧
    (∀ (prog : GoProgram) (ce : ConverterEngine) (fuel : Nat) (st : GoType)
        (ps : List (GoVal × GoVal)) (t : GoType) (i : Nat) (hi : i < ps.length) (e : GoError)
        (w0 : GoVal),
      ce.Convert prog fuel (ps.get ⟨i, hi⟩).2 t.elemType = .ok w0 →
      ce.Convert prog fuel (ps.get ⟨i, hi⟩).1 t.keyType = .err e →
      (∀ j (hj : j < ps.length), j < i →
        (∃ w, ce.Convert prog fuel (ps.get ⟨j, hj⟩).2 t.elemType = .ok w) ∧
        (∃ kw, ce.Convert prog fuel (ps.get ⟨j, hj⟩).1 t.keyType = .ok kw)) →
      ce.convertMap prog fuel (.vmap st ps) t = .err e) ∧
    (∀ (qs : List (GoVal × GoVal)) (k : GoVal),
      mapLookup (insertAll [] qs) k = lastAssoc qs k) := by
  refine ⟨?_, ?_, ?_, ?_⟩
  · intro prog ce fuel st ps t kws ws hl1 hl2 hptv hptk
    have := convertMapGo_ok_pointwise (ce.Convert prog fuel) ps t.elemType t.keyType t []
      kws ws hl1 hl2 hptv hptk
    simpa [ConverterEngine.convertMap, convertMapF, asEntries] using this
  · intro prog ce fuel st ps t i hi e herr hok
    have := convertMapGo_err_val_at (ce.Convert prog fuel) ps t.elemType t.keyType t []
      i hi e herr hok
    simpa [ConverterEngine.convertMap, convertMapF, asEntries] using this
  · intro prog ce fuel st ps t i hi e w0 hval herr hok
    have := convertMapGo_err_key_at (ce.Convert prog fuel) ps t.elemType t.keyType t []
      i hi e w0 hval herr hok
    simpa [ConverterEngine.convertMap, convertMapF, asEntries] using this
  · intro qs k
    have := mapLookup_insertAll qs [] k
    rw [this]
    cases lastAssoc qs k <;> rfl

/-- **C6** witness: the spec's example — converting the map
`{"1": "uno", "2": "dos"}` to a map keyed by `int` yields
`{1: "uno", 2: "dos"}`. -/
theorem C6_witness :
    ConverterEngine.New.convertMap prog0 1
        (.vmap (.mapT goStringT anyT) [(goStr "1", goStr "uno"), (goStr "2", goStr "dos")])
        (.mapT goIntT goStringT) =
      .ok (.vmap (.mapT goIntT goStringT)
        [(.vint goIntT 1, goStr "uno"), (.vint goIntT 2, goStr "dos")]) :=
  (C6_map_conversion.1 prog0 ConverterEngine.New 1 (.mapT goStringT anyT)
    [(goStr "1", goStr "uno"), (goStr "2", goStr "dos")] (.mapT goIntT goStringT)
    [.vint goIntT 1, .vint goIntT 2] [goStr "uno", goStr "dos"] rfl rfl
    (by
      intro i hi hw
      rcases i with _ | _ | i3
      · simp only [List.get]
        decide
      · simp only [List.get]
        decide
      · simp only [List.length_cons, List.length_nil] at hi
        omega)
    (by
      intro i hi hw
      rcases i with _ | _ | i3
      · simp only [List.get]
        decide
      · simp only [List.get]
        decide
      · simp only [List.length_cons, List.length_nil] at hi
        omega)).trans (by decide)

theorem natDigitsAux_eq (f n : Nat) (h : n ≤ f) : natDigitsAux f n = Nat.digits 10 n := by
  induction f generalizing n with
  | zero =>
    have : n = 0 := by omega
    subst this
    simp [natDigitsAux]
  | succ f ih =>
    by_cases hn : n = 0
    · subst hn; simp [natDigitsAux]
    · have hlt : n / 10 ≤ f := by
        have := Nat.div_lt_self (Nat.pos_of_ne_zero hn) (by norm_num : 1 < 10)
        omega
      rw [show natDigitsAux (f + 1) n = n % 10 :: natDigitsAux f (n / 10) by
        simp [natDigitsAux, hn]]
      rw [ih (n / 10) hlt]
      rw [Nat.digits_def' (by norm_num : 1 < 10) (Nat.pos_of_ne_zero hn)]

theorem natDigits_eq_digits (n : Nat) : natDigits n = Nat.digits 10 n :=
  natDigitsAux_eq n n (le_refl n)

theorem foldr_ofDigits (l : List Nat) :
    l.foldr (fun d a => a * 10 + d) 0 = Nat.ofDigits 10 l := by
  induction l with
  | nil => rfl
  | cons d tl ih =>
    simp only [List.foldr_cons, ih, Nat.ofDigits_cons]
    omega

theorem decDigitsVal_rev_map (l : List Nat) :
    decDigitsVal (l.reverse.map (fun d => d + 48)) = Nat.ofDigits 10 l := by
  unfold decDigitsVal
  rw [List.foldl_map]
  have hfun : (fun (a d : Nat) => a * 10 + (d + 48 - 48)) = fun a d => a * 10 + d := by
    funext a d
    omega
  rw [hfun, List.foldl_reverse, foldr_ofDigits]

theorem formatNat_all_digits (m : Nat) : ∀ c ∈ formatNat m, isDigitB c = true := by
  intro c hc
  unfold formatNat at hc
  by_cases hm : m = 0
  · rw [if_pos hm] at hc
    simp at hc
    subst hc
    rfl
  · rw [if_neg hm, natDigits_eq_digits] at hc
    simp only [List.mem_map, List.mem_reverse] at hc
    obtain ⟨d, hd, hdc⟩ := hc
    have := Nat.digits_lt_base (by norm_num : 1 < 10) hd
    subst hdc
    simp only [isDigitB, Bool.and_eq_true, decide_eq_true_eq]
    omega

theorem formatNat_ne_nil (m : Nat) : formatNat m ≠ [] := by
  unfold formatNat
  by_cases hm : m = 0
  · simp [hm]
  · rw [if_neg hm, natDigits_eq_digits]
    simp only [ne_eq, List.map_eq_nil_iff, List.reverse_eq_nil_iff]
    exact Nat.digits_ne_nil_iff_ne_zero.2 hm

theorem parseNatDigits_formatNat (m : Nat) : parseNatDigits (formatNat m) = some m := by
  unfold parseNatDigits
  rw [if_pos ⟨formatNat_ne_nil m, List.all_eq_true.2 (formatNat_all_digits m)⟩]
  congr 1
  unfold formatNat
  by_cases hm : m = 0
  · simp [hm, decDigitsVal]
  · rw [if_neg hm, natDigits_eq_digits, decDigitsVal_rev_map, Nat.ofDigits_digits]

theorem formatNat_head_not_sign (m : Nat) (c : Nat) (cs : List Nat)
    (h : formatNat m = c :: cs) : c ≠ 45 ∧ c ≠ 43 := by
  have hc : isDigitB c = true := formatNat_all_digits m c (by rw [h]; simp)
  simp only [isDigitB, Bool.and_eq_true, decide_eq_true_eq] at hc
  omega

theorem parseUint_formatNat (m : Nat) (w : Nat) (hm : m < 2 ^ w) :
    parseUint (formatNat m) w = .ok m := by
  simp [parseUint, parseNatDigits_formatNat, hm]

theorem parseInt_formatInt (n : Int) (w : Nat)
    (hlo : -(2 ^ (w - 1) : Int) ≤ n) (hhi : n < 2 ^ (w - 1)) :
    parseInt (formatInt n) w = .ok n := by
  by_cases hn : n < 0
  · rw [show formatInt n = 45 :: formatNat n.natAbs by simp [formatInt, hn]]
    have habs : n.natAbs ≤ 2 ^ (w - 1) := by
      have hcast : ((2 ^ (w - 1) : Nat) : Int) = (2 : Int) ^ (w - 1) := by exact_mod_cast rfl
      omega
    simp [parseInt, parseNatDigits_formatNat, habs, abs_of_neg hn]
  · rw [show formatInt n = formatNat n.toNat by simp [formatInt, hn]]
    obtain ⟨c, cs, hccs⟩ : ∃ c cs, formatNat n.toNat = c :: cs := by
      cases hfn : formatNat n.toNat with
      | nil => exact absurd hfn (formatNat_ne_nil _)
      | cons c cs => exact ⟨c, cs, rfl⟩
    obtain ⟨h45, h43⟩ := formatNat_head_not_sign n.toNat c cs hccs
    have hval : parseNatDigits (c :: cs) = some n.toNat := by
      rw [← hccs]; exact parseNatDigits_formatNat n.toNat
    have hrange : n.toNat < 2 ^ (w - 1) := by
      have hcast : ((2 ^ (w - 1) : Nat) : Int) = (2 : Int) ^ (w - 1) := by exact_mod_cast rfl
      omega
    rw [hccs]
    simp [parseInt, h45, h43, hval, hrange]
    omega

theorem parseBool_formatBool (b : Bool) : parseBool (formatBool b) = .ok b := by
  cases b <;> rfl

theorem wrapSigned_id (n : Int) (w : Nat) (hw : 1 ≤ w)
    (hlo : -(2 ^ (w - 1) : Int) ≤ n) (hhi : n < 2 ^ (w - 1)) : wrapSigned n w = n := by
  unfold wrapSigned
  have hpow : (2 : Int) ^ w = 2 ^ (w - 1) * 2 := by
    rw [← pow_succ]
    congr 1
    omega
  have h1 : 0 ≤ n + 2 ^ (w - 1) := by omega
  have h2 : n + 2 ^ (w - 1) < 2 ^ w := by omega
  rw [Int.emod_eq_of_lt h1 h2]
  omega

theorem convert_via_toString (prog : GoProgram) (ce : ConverterEngine) (v : GoVal)
    (tau t : GoType) (fuel : Nat) (o : Outcome)
    (htau : typeOf? v = some tau) (hne : tau ≠ t)
    (hsrc : lookupReg ce.sourceConverters (some tau) = [])
    (hct : prog.converterTo tau = none)
    (htgt : lookupReg ce.targetConverters (some t) = [])
    (hiface : ∀ p ∈ ce.interfaceConverters, prog.implements tau p.1 = false)
    (hstr : tryToString prog (some tau) v t = some o) :
    ce.Convert prog (fuel + 1) v t = o := by
  have h1 : runFuncs (ce.Convert prog fuel) (lookupReg ce.sourceConverters (some tau)) v t =
      none := by rw [hsrc]; rfl
  have h2 : tryConverterTo (ce.Convert prog fuel) prog (some tau) v t = none := by
    simp [tryConverterTo, hct]
  have h3 : runFuncs (ce.Convert prog fuel) (lookupReg ce.targetConverters (some t)) v t =
      none := by rw [htgt]; rfl
  have h4 := runIface_no_impl (ce.Convert prog fuel) prog ce.interfaceConverters tau v t hiface
  show convertBody _ prog _ v t = o
  unfold convertBody
  simp only [htau, h1, h2, h3, h4, hstr]
  rw [if_neg (by simpa using hne)]

theorem convert_via_parse (prog : GoProgram) (ce : ConverterEngine) (v : GoVal)
    (tau t : GoType) (fuel : Nat) (o : Outcome)
    (htau : typeOf? v = some tau) (hne : tau ≠ t)
    (hsrc : lookupReg ce.sourceConverters (some tau) = [])
    (hct : prog.converterTo tau = none)
    (htgt : lookupReg ce.targetConverters (some t) = [])
    (hiface : ∀ p ∈ ce.interfaceConverters, prog.implements tau p.1 = false)
    (hstr : tryToString prog (some tau) v t = none)
    (hparse : tryParse prog (some tau) v t = some o) :
    ce.Convert prog (fuel + 1) v t = o := by
  have h1 : runFuncs (ce.Convert prog fuel) (lookupReg ce.sourceConverters (some tau)) v t =
      none := by rw [hsrc]; rfl
  have h2 : tryConverterTo (ce.Convert prog fuel) prog (some tau) v t = none := by
    simp [tryConverterTo, hct]
  have h3 : runFuncs (ce.Convert prog fuel) (lookupReg ce.targetConverters (some t)) v t =
      none := by rw [htgt]; rfl
  have h4 := runIface_no_impl (ce.Convert prog fuel) prog ce.interfaceConverters tau v t hiface
  show convertBody _ prog _ v t = o
  unfold convertBody
  simp only [htau, h1, h2, h3, h4, hstr, hparse]
  rw [if_neg (by simpa using hne)]

theorem wrapUnsigned_id (n : Nat) (w : Nat) (h : n < 2 ^ w) :
    wrapUnsigned (n : Int) w = n := by
  unfold wrapUnsigned
  have hcast : ((2 ^ w : Nat) : Int) = (2 : Int) ^ w := by exact_mod_cast rfl
  have hlt : (n : Int) < (2 : Int) ^ w := by omega
  rw [Int.emod_eq_of_lt (by positivity) hlt]
  omega

theorem convert_bool_roundtrip (name : String) (b : Bool)
    (hne : GoType.prim name .kbool ≠ goStringT) :
    ConverterEngine.New.Convert prog0 1 (.vbool (.prim name .kbool) b) goStringT =
        .ok (.vstring goStringT (formatBool b)) ∧
      ConverterEngine.New.Convert prog0 1 (.vstring goStringT (formatBool b))
        (.prim name .kbool) = .ok (.vbool (.prim name .kbool) b) := by
  constructor
  · exact convert_via_toString prog0 ConverterEngine.New _ (.prim name .kbool) goStringT 0 _
      rfl hne rfl rfl rfl (by intro p hp; simp [ConverterEngine.New] at hp) rfl
  · have hts : tryToString prog0 (some goStringT) (.vstring goStringT (formatBool b))
        (.prim name .kbool) = none :=
      tryToString_none prog0 goStringT _ (.prim name .kbool) (fun h => nomatch h)
    have htp : tryParse prog0 (some goStringT) (.vstring goStringT (formatBool b))
        (.prim name .kbool) = some (.ok (.vbool (.prim name .kbool) b)) := by
      have hpb := parseBool_formatBool b
      simp [tryParse, GoType.kind, goStringT, parseArm, hpb, Except.map, kind2Exact,
        reflectConvert, asBool, asString]
    exact convert_via_parse prog0 ConverterEngine.New
      (.vstring goStringT (formatBool b)) goStringT (.prim name .kbool) 0
      (.ok (.vbool (.prim name .kbool) b)) rfl (fun h => hne h.symm) rfl rfl rfl
      (by intro p hp; simp [ConverterEngine.New] at hp) hts htp

theorem tryToString_int (name : String) (k : GoKind) (n : Int) (hk : k.isSigned = true) :
    tryToString prog0 (some (.prim name k)) (.vint (.prim name k) n) goStringT =
      some (.ok (.vstring goStringT (formatInt n))) := by
  cases k <;> first
    | exact absurd hk (by decide)
    | rfl
    | simp [tryToString, GoType.kind, goStringT, kind2Exact, reflectConvert, asInt]

theorem tryParse_int (name : String) (k : GoKind) (n : Int) (hk : k.isSigned = true)
    (hlo : -(2 ^ (k.width - 1) : Int) ≤ n) (hhi : n < 2 ^ (k.width - 1)) :
    tryParse prog0 (some goStringT) (.vstring goStringT (formatInt n)) (.prim name k) =
      some (.ok (.vint (.prim name k) n)) := by
  cases k <;> first
    | exact absurd hk (by decide)
    | (have hpi := parseInt_formatInt n _ hlo hhi
       have hw := wrapSigned_id n _ (by decide) hlo hhi
       simp [tryParse, GoType.kind, goStringT, parseArm, hpi, Except.map, kind2Exact,
         reflectConvert, truncAsInt, asString, hw])

theorem tryToString_uint (name : String) (k : GoKind) (m : Nat) (hk : k.isUnsigned = true) :
    tryToString prog0 (some (.prim name k)) (.vuint (.prim name k) m) goStringT =
      some (.ok (.vstring goStringT (formatNat m))) := by
  cases k <;> first
    | exact absurd hk (by decide)
    | rfl
    | simp [tryToString, GoType.kind, goStringT, kind2Exact, reflectConvert, asUint]

theorem tryParse_uint (name : String) (k : GoKind) (m : Nat) (hk : k.isUnsigned = true)
    (hm : m < 2 ^ k.width) :
    tryParse prog0 (some goStringT) (.vstring goStringT (formatNat m)) (.prim name k) =
      some (.ok (.vuint (.prim name k) m)) := by
  cases k <;> first
    | exact absurd hk (by decide)
    | (have hpu := parseUint_formatNat m _ hm
       have hw := wrapUnsigned_id m _ hm
       simp [tryParse, GoType.kind, goStringT, parseArm, hpu, Except.map, kind2Exact,
         reflectConvert, truncAsInt, asString, hw])

theorem convert_int_roundtrip (name : String) (k : GoKind) (n : Int)
    (hk : k.isSigned = true) (hne : GoType.prim name k ≠ goStringT)
    (hlo : -(2 ^ (k.width - 1) : Int) ≤ n) (hhi : n < 2 ^ (k.width - 1)) :
    ConverterEngine.New.Convert prog0 1 (.vint (.prim name k) n) goStringT =
        .ok (.vstring goStringT (formatInt n)) ∧
      ConverterEngine.New.Convert prog0 1 (.vstring goStringT (formatInt n))
        (.prim name k) = .ok (.vint (.prim name k) n) := by
  refine ⟨?_, ?_⟩
  · exact convert_via_toString prog0 ConverterEngine.New _ (.prim name k) goStringT 0 _
      rfl hne rfl rfl rfl (by intro p hp; simp [ConverterEngine.New] at hp)
      (tryToString_int name k n hk)
  · exact convert_via_parse prog0 ConverterEngine.New _ goStringT (.prim name k) 0 _
      rfl (fun h => hne h.symm) rfl rfl rfl
      (by intro p hp; simp [ConverterEngine.New] at hp)
      (tryToString_none prog0 goStringT _ _ (fun _ => ⟨rfl, by decide⟩))
      (tryParse_int name k n hk hlo hhi)

theorem convert_uint_roundtrip (name : String) (k : GoKind) (m : Nat)
    (hk : k.isUnsigned = true) (hne : GoType.prim name k ≠ goStringT)
    (hm : m < 2 ^ k.width) :
    ConverterEngine.New.Convert prog0 1 (.vuint (.prim name k) m) goStringT =
        .ok (.vstring goStringT (formatNat m)) ∧
      ConverterEngine.New.Convert prog0 1 (.vstring goStringT (formatNat m))
        (.prim name k) = .ok (.vuint (.prim name k) m) := by
  refine ⟨?_, ?_⟩
  · exact convert_via_toString prog0 ConverterEngine.New _ (.prim name k) goStringT 0 _
      rfl hne rfl rfl rfl (by intro p hp; simp [ConverterEngine.New] at hp)
      (tryToString_uint name k m hk)
  · exact convert_via_parse prog0 ConverterEngine.New _ goStringT (.prim name k) 0 _
      rfl (fun h => hne h.symm) rfl rfl rfl
      (by intro p hp; simp [ConverterEngine.New] at hp)
      (tryToString_none prog0 goStringT _ _ (fun _ => ⟨rfl, by decide⟩))
      (tryParse_uint name k m hk hm)

/-- C7 (amended): on a fresh engine, a value of any named boolean,
signed-integer or unsigned-integer type that is not the `string` type itself
survives the string round trip exactly: `Convert` to `string` succeeds with
the strconv formatting of the value, and converting that string back to the
original type returns the original value (every value of these kinds is
representable, so the range hypotheses always hold for genuine Go values).
The original claim also asserted the round trip for floating-point kinds;
that part is refuted by `C7_counterexample`: `FormatFloat` with precision 6
loses digits. -/
theorem C7_string_roundtrip (name : String) (k : GoKind) (v : GoVal)
    (hne : GoType.prim name k ≠ goStringT)
    (hv : (k = .kbool ∧ ∃ b, v = .vbool (.prim name k) b) ∨
          (k.isSigned = true ∧ ∃ n : Int, v = .vint (.prim name k) n ∧
            -(2 ^ (k.width - 1) : Int) ≤ n ∧ n < 2 ^ (k.width - 1)) ∨
          (k.isUnsigned = true ∧ ∃ m : Nat, v = .vuint (.prim name k) m ∧ m < 2 ^ k.width)) :
    ∃ s : List Nat,
      ConverterEngine.New.Convert prog0 1 v goStringT = .ok (.vstring goStringT s) ∧
      ConverterEngine.New.Convert prog0 1 (.vstring goStringT s) (.prim name k) = .ok v := by
  rcases hv with ⟨hb, b, rfl⟩ | ⟨hk, n, rfl, hlo, hhi⟩ | ⟨hk, m, rfl, hm⟩
  · subst hb
    exact ⟨formatBool b, convert_bool_roundtrip name b hne⟩
  · exact ⟨formatInt n, convert_int_roundtrip name k n hk hne hlo hhi⟩
  · exact ⟨formatNat m, convert_uint_roundtrip name k m hk hne hm⟩

/-- C7 counterexample: the round trip fails for `float64`.  The value
`123456789` is exactly representable in a float64, but `Convert` to string
formats it with `strconv.FormatFloat(x, 'g', 6, 64)` as `"1.23457e+08"`,
and converting that string back to `float64` yields `123457000`, not the
original value. -/
theorem C7_counterexample :
    ConverterEngine.New.Convert prog0 1 (.vfloat goFloat64T 123456789) goStringT =
        .ok (.vstring goStringT (asciiStr "1.23457e+08")) ∧
      ConverterEngine.New.Convert prog0 1 (.vstring goStringT (asciiStr "1.23457e+08"))
        goFloat64T = .ok (.vfloat goFloat64T 123457000) ∧
      ConverterEngine.New.Convert prog0 1
          (.vstring goStringT (asciiStr "1.23457e+08")) goFloat64T ≠
        .ok (.vfloat goFloat64T 123456789) := by
  refine ⟨by decide, by decide, by decide⟩

/-- C7 witness: `int32(3)` converts to the string `"3"` and back to
`int32(3)`. -/
theorem C7_witness :
    ∃ s : List Nat,
      ConverterEngine.New.Convert prog0 1 (.vint (.prim "int32" .kint32) 3) goStringT =
        .ok (.vstring goStringT s) ∧
      ConverterEngine.New.Convert prog0 1 (.vstring goStringT s)
        (.prim "int32" .kint32) = .ok (.vint (.prim "int32" .kint32) 3) :=
  C7_string_roundtrip "int32" .kint32 _ (by decide)
    (Or.inr (Or.inl ⟨rfl, 3, rfl, by decide, by decide⟩))
